import Mathlib

/-
Shallow embedding of the multi-axis motion-control driver `us`
(central_control_dev/us.py) and verification of its specification.

Modelling conventions:
- The hardware link (`self.pcb.get(...)`) is a structure of response
  functions indexed by an abstract clock: every single link interaction
  advances the clock by one tick.  Timeouts (floats of seconds in the
  source) become integer tick budgets: the source's
  `while timeout - (time.time() - t0) > 0` loop becomes a loop over a fuel
  value computed as `(deadline - t).toNat`, with the clock advancing by one
  tick per poll, which preserves the loop's semantics exactly (one poll per
  iteration while the deadline has not passed).
- Millimetre quantities and `steps_per_mm` (floats in the source) are
  modelled as rationals; step counts and driver length/position readings
  are integers.  `round` is Python's round-half-to-even.
- A link read returning Python `None` is `Option.none`; an uncaught Python
  exception (e.g. `None / steps_per_mm`) makes the modelled operation
  return `none : Option (Step _)`.  `connect` catches all exceptions, so it
  returns a plain result.
- Fields of the driver object that are written only at construction /
  `connect` time live in `Fix`; fields mutated by later operations live in
  `Mut` and are threaded through every operation together with the clock
  and the trace of commands sent on the link.
-/

namespace Us

/- The rational-arithmetic primitives are shipped irreducible; concrete
scenarios here are settled by evaluation, so let them unfold in this
file. -/
attribute [local semireducible] Rat.mul Rat.add Rat.sub Rat.inv Rat.ofScientific

/-- Python's builtin round (round half to even), applied by `goto` when
converting a millimetre target to steps. -/
def pyRound (q : ℚ) : ℤ :=
  let f := ⌊q⌋
  let r := q - (f : ℚ)
  if r < 1/2 then f
  else if 1/2 < r then f + 1
  else if Even f then f else f + 1

/-- Class attribute `allowed_length_deviation` (mm). -/
def allowed_length_deviation : ℚ := 5

/-- Class attribute `end_buffers` (mm). -/
def end_buffers : ℚ := 5

/-- Class attribute `otter_safe_x` (mm). -/
def otter_safe_x : ℚ := 550

/-- Commands sent over the link (`self.pcb.get(...)`), one constructor per
command family of the wire protocol. -/
inductive Cmd where
  | getE : Cmd
  | getL : ℤ → Cmd
  | getR : ℤ → Cmd
  | home : Option ℤ → Cmd
  | jog : ℤ → Char → Cmd
  | goto : ℤ → ℤ → Cmd
  | stop : Option ℤ → Cmd
  deriving DecidableEq, Repr

/-- The hardware link: response functions indexed by the clock.  `e` is the
axis-discovery bitmask read (`none` = the read or the int() parse raised);
`l ax t` / `r ax t` are the length / position reads (`none` = the link
answered Python `None`); `ack c t` tells whether a command got the empty
(acknowledged) response. -/
structure Link where
  e : ℕ → Option ℕ
  l : ℤ → ℕ → Option ℤ
  r : ℤ → ℕ → Option ℤ
  ack : Cmd → ℕ → Bool

/-- Driver fields fixed after `connect`: the discovered axis list, its
cached length `n_axes`, the steps-per-mm ratio, the expected lengths
(converted to steps by `connect`), and whether "otter" is in `extra`. -/
structure Fix where
  axes : List ℤ
  n_axes : ℕ
  steps_per_mm : ℚ
  expected_lengths : List (Option ℚ)
  hasOtter : Bool
  deriving DecidableEq, Repr

/-- Driver fields mutated by post-connect operations. -/
structure Mut where
  current_position : List (Option ℚ)
  measured_lengths : List (Option ℤ)
  keepout_zones : List (List ℚ)
  homed : Option Bool
  deriving DecidableEq, Repr

/-- A Python return value that is either an error/success code or a list of
measured lengths (as returned by `home` / `wait_for_home_or_jog` / `jog`). -/
inductive PyRet where
  | code : ℤ → PyRet
  | list : List ℤ → PyRet
  deriving DecidableEq, Repr

/-- Result of one modelled operation: return value, mutable state, clock,
and the trace of commands sent on the link during the operation. -/
structure Step (α : Type) where
  ret : α
  m : Mut
  t : ℕ
  tr : List Cmd
  deriving DecidableEq, Repr

/-- The body of the `for ax in to_check` loop of `check_lengths`: records
the fresh length reading, classifies the axis, and breaks on the first
failure (carrying the running `ret` across iterations).  Returns `none`
when the source would raise (expected length missing or `None`). -/
def checkLoop (link : Link) (fix : Fix) : List ℤ → ℤ → Mut → ℕ → Option (Step ℤ)
  | [], ret, m, t => some ⟨ret, m, t, []⟩
  | ax :: rest, _, m, t =>
    let dl := link.l ax t
    let idx := fix.axes.indexOf ax
    let m1 : Mut := { m with measured_lengths := m.measured_lengths.set idx dl }
    let t1 := t + 1
    match dl with
    | some d =>
      if 0 < d then
        match fix.expected_lengths.get? idx with
        | some (some el) =>
          let ald := allowed_length_deviation * fix.steps_per_mm
          if (d : ℚ) < el + ald ∧ el - ald < (d : ℚ) then
            match checkLoop link fix rest 0 m1 t1 with
            | some o => some ⟨o.ret, o.m, o.t, Cmd.getL ax :: o.tr⟩
            | none => none
          else some ⟨-1, m1, t1, [Cmd.getL ax]⟩
        | _ => none
      else some ⟨-2, { m1 with homed := some false }, t1, [Cmd.getL ax]⟩
    | none => some ⟨-2, { m1 with homed := some false }, t1, [Cmd.getL ax]⟩

/-- `check_lengths(axis)`: validates measured lengths against expected
lengths; `axis = -1` checks all axes and also writes the aggregate `homed`
flag from the overall result. -/
def check_lengths (link : Link) (fix : Fix) (m : Mut) (t : ℕ) (axis : ℤ) :
    Option (Step ℤ) :=
  let tc : List ℤ × ℤ :=
    if axis = -1 then (fix.axes, -9)
    else if axis ∈ fix.axes then ([axis], -9) else ([], -3)
  match checkLoop link fix tc.1 tc.2 m t with
  | none => none
  | some o =>
    if axis = -1 then
      some ⟨o.ret, { o.m with homed := some (decide (o.ret = 0)) }, o.t, o.tr⟩
    else some o

/-- The inner `while time_left > 0` polling loop of `wait_for_home_or_jog`
for one axis, with the remaining time expressed as poll fuel (each failed
poll advances the clock one tick; fuel 0 means the deadline has passed, so
the loop body never runs and the axis reports timeout, code -1).  On a
non-negative length reading the axis is finished: its length joins the
dims list, its current position is refreshed from the link (raising —
`none` — if that read answers Python None), and for a single-axis wait
`check_lengths` is re-run on that axis.  Returns (ret, dims contribution,
state, clock, trace). -/
def waitAxisLoop (link : Link) (fix : Fix) (axisArg ax : ℤ) :
    ℕ → Mut → ℕ → Option (ℤ × List ℤ × Mut × ℕ × List Cmd)
  | 0, m, t => some (-1, [], m, t, [])
  | fuel + 1, m, t =>
    let axl := link.l ax t
    let t1 := t + 1
    match axl with
    | some v =>
      if 0 ≤ v then
        let rv := link.r ax t1
        let t2 := t1 + 1
        match rv with
        | none => none
        | some p =>
          let cp := m.current_position.set (fix.axes.indexOf ax)
            (some ((p : ℚ) / fix.steps_per_mm))
          let m1 : Mut := { m with current_position := cp }
          if axisArg ≠ -1 then
            match check_lengths link fix m1 t2 ax with
            | none => none
            | some o => some (0, [v], o.m, o.t, Cmd.getL ax :: Cmd.getR ax :: o.tr)
          else some (0, [v], m1, t2, [Cmd.getL ax, Cmd.getR ax])
      else
        match waitAxisLoop link fix axisArg ax fuel m t1 with
        | none => none
        | some (r, ds, m', t', tr) => some (r, ds, m', t', Cmd.getL ax :: tr)
    | none =>
      match waitAxisLoop link fix axisArg ax fuel m t1 with
      | none => none
      | some (r, ds, m', t', tr) => some (r, ds, m', t', Cmd.getL ax :: tr)

/-- The `for ax in to_wait_for` loop of `wait_for_home_or_jog`:  `ret` is
re-assigned by every axis (so the final value is the last axis's outcome),
dims accumulates the finished axes' lengths, and each axis's poll fuel is
recomputed from the shared deadline `dl`. -/
def waitAxes (link : Link) (fix : Fix) (axisArg : ℤ) (dl : ℤ) :
    List ℤ → ℤ → List ℤ → Mut → ℕ → Option (ℤ × List ℤ × Mut × ℕ × List Cmd)
  | [], ret, dims, m, t => some (ret, dims, m, t, [])
  | ax :: rest, _, dims, m, t =>
    match waitAxisLoop link fix axisArg ax (dl - (t : ℤ)).toNat m t with
    | none => none
    | some (r, ds, m1, t1, tr1) =>
      match waitAxes link fix axisArg dl rest r (dims ++ ds) m1 t1 with
      | none => none
      | some (r2, dims2, m2, t2, tr2) => some (r2, dims2, m2, t2, tr1 ++ tr2)

/-- `wait_for_home_or_jog(axis, timeout)`: blocks while the axes finish
homing/jogging.  An invalid axis yields -3 with no polling; otherwise the
per-axis loops run against the shared deadline, the result becomes the
dims list when the last axis's outcome was 0, and a whole-stage wait
re-runs the full `check_lengths` afterwards. -/
def wait_for_home_or_jog (link : Link) (fix : Fix) (m : Mut) (t : ℕ)
    (axis : ℤ) (timeout : ℤ) : Option (Step PyRet) :=
  let dl : ℤ := (t : ℤ) + timeout
  let tw : List ℤ × ℤ :=
    if axis = -1 then (fix.axes, -9)
    else if axis ∈ fix.axes then ([axis], -9) else ([], -3)
  match waitAxes link fix axis dl tw.1 tw.2 [] m t with
  | none => none
  | some (r, dims, m1, t1, tr1) =>
    let res : PyRet := if r = 0 then PyRet.list dims else PyRet.code r
    if axis = -1 then
      match check_lengths link fix m1 t1 (-1) with
      | none => none
      | some o => some ⟨res, o.m, o.t, tr1 ++ o.tr⟩
    else some ⟨res, m1, t1, tr1⟩

/-- `jog(axis, direction, block, timeout)`: issues a direction-only move
command for one axis; when blocking, delegates to the waiter and converts
a `[0]` result (only that exact list) to the success code 0. -/
def jog (link : Link) (fix : Fix) (m : Mut) (t : ℕ) (axis : ℤ)
    (direction : Char) (block : Bool) (timeout : ℤ) : Option (Step PyRet) :=
  let t0 := t
  if axis ∈ fix.axes then
    let c := Cmd.jog axis direction
    let acked := link.ack c t
    let t1 := t + 1
    if acked then
      if block then
        match wait_for_home_or_jog link fix m t1 axis
            (timeout - ((t1 : ℤ) - (t0 : ℤ))) with
        | none => none
        | some o =>
          let r := if o.ret = PyRet.list [0] then PyRet.code 0 else o.ret
          some ⟨r, o.m, o.t, c :: o.tr⟩
      else some ⟨PyRet.code 0, m, t1, [c]⟩
    else some ⟨PyRet.code (-2), m, t1, [c]⟩
  else some ⟨PyRet.code (-3), m, t, []⟩

/-- The effective keepout list used by `goto`: an empty per-axis keepout
list gets `[-10, -10]` appended ("something that's never enforced"). -/
def effKoz (koz : List ℚ) : List ℚ :=
  if koz = [] then [-10, -10] else koz

/-- Python `min` over the (nonempty) effective keepout list. -/
def kozMin (koz : List ℚ) : ℚ :=
  match effKoz koz with
  | [] => 0
  | k :: ks => ks.foldl min k

/-- Python `max` over the (nonempty) effective keepout list. -/
def kozMax (koz : List ℚ) : ℚ :=
  match effKoz koz with
  | [] => 0
  | k :: ks => ks.foldl max k

/-- Intermediate result of `goto`'s validation loop: running `ret`, the
targets converted to steps so far (the source converts in place in
`new_pos`), state, clock, trace. -/
structure ValOut where
  ret : ℤ
  tgts : List ℤ
  m : Mut
  t : ℕ
  tr : List Cmd
  deriving DecidableEq, Repr

/-- The "check the new position" loop of `goto` over (target mm, axis)
pairs: converts each target to steps, reads the axis's length from the
link, and applies the bounds/keepout guard, breaking with -6 on a
violation or -2 (and `homed := False`) on an unreadable length.  An empty
keepout list is replaced (in the stored state, as in the source, which
mutates the shared list) by `[-10, -10]`.  Returns `none` where the source
would raise (`self.axes.index(ax)` on an axis outside the discovered
list). -/
def gotoValidate (link : Link) (fix : Fix) :
    List (ℚ × ℤ) → ℤ → Mut → ℕ → Option ValOut
  | [], ret, m, t => some ⟨ret, [], m, t, []⟩
  | (np, ax) :: rest, _, m, t =>
    let tgt : ℤ := pyRound (np * fix.steps_per_mm)
    let axl := link.l ax t
    let t1 := t + 1
    match axl with
    | some l =>
      if 0 < l then
        let ebs := end_buffers * fix.steps_per_mm
        let axmax : ℚ := (l : ℚ) - ebs
        let idx := fix.axes.indexOf ax
        match m.keepout_zones.get? idx with
        | none => none
        | some koz0 =>
          let kz := m.keepout_zones.set idx (effKoz koz0)
          let m1 : Mut := { m with keepout_zones := kz }
          let kmin := kozMin koz0 * fix.steps_per_mm
          let kmax := kozMax koz0 * fix.steps_per_mm
          if (ebs ≤ (tgt : ℚ) ∧ (tgt : ℚ) ≤ axmax) ∧
              ¬(kmin ≤ (tgt : ℚ) ∧ (tgt : ℚ) ≤ kmax) then
            match gotoValidate link fix rest 0 m1 t1 with
            | none => none
            | some o => some ⟨o.ret, tgt :: o.tgts, o.m, o.t, Cmd.getL ax :: o.tr⟩
          else some ⟨-6, [tgt], m1, t1, [Cmd.getL ax]⟩
      else some ⟨-2, [tgt], { m with homed := some false }, t1, [Cmd.getL ax]⟩
    | none => some ⟨-2, [tgt], { m with homed := some false }, t1, [Cmd.getL ax]⟩

/-- The "initiate the moves" loop of `goto`: sends one absolute-move
command per (axis, step-target) pair, breaking with -2 on the first
rejected command. -/
def gotoSend (link : Link) : List (ℤ × ℤ) → ℕ → ℤ × ℕ × List Cmd
  | [], t => (0, t, [])
  | (ax, tgt) :: rest, t =>
    if link.ack (Cmd.goto ax tgt) t then
      let o := gotoSend link rest (t + 1)
      (o.1, o.2.1, Cmd.goto ax tgt :: o.2.2)
    else (-2, t + 1, [Cmd.goto ax tgt])

/-- The per-axis stability loop of blocking `goto`: polls the position
until the last two readings (deque seeded with -1000, -2000) are equal,
then compares the stopped position with the target — a mismatch is a
stall (-8, sticky across axes), a match sets 0 unless a stall already
stuck.  On a detected stop the cached position is written at index `i`,
the axis's position inside the call's axes argument (exactly as the
source does).  Fuel 0 means the deadline passed: ret becomes -1.  Two
consecutive `None` readings make the source raise in its diagnostic
print (`None / steps_per_mm`), modelled as `none`. -/
def gotoWaitAxis (link : Link) (fix : Fix) (ax : ℤ) (tgt : ℤ) (i : ℕ) :
    ℕ → Option ℤ → Option ℤ → ℤ → Mut → ℕ → Option (ℤ × Mut × ℕ × List Cmd)
  | 0, _, _, _, m, t => some (-1, m, t, [])
  | fuel + 1, _, q1, ret, m, t =>
    let v := link.r ax t
    let t1 := t + 1
    if q1 = v then
      match q1 with
      | none => none
      | some p =>
        let retNew : ℤ := if p ≠ tgt then -8 else if ret ≠ -8 then 0 else ret
        let cp := m.current_position.set i (some ((p : ℚ) / fix.steps_per_mm))
        some (retNew, { m with current_position := cp }, t1, [Cmd.getR ax])
    else
      match gotoWaitAxis link fix ax tgt i fuel q1 v ret m t1 with
      | none => none
      | some (r, m', t', tr) => some (r, m', t', Cmd.getR ax :: tr)

/-- The "wait for all the motion to be done" loop of blocking `goto`:
runs the stability loop for each (axis, target) pair in order, with `i`
the pair's index in the call's axes list and the fuel recomputed from the
shared deadline. -/
def gotoWaitAll (link : Link) (fix : Fix) (dl : ℤ) :
    List (ℤ × ℤ) → ℤ → ℕ → Mut → ℕ → Option (ℤ × Mut × ℕ × List Cmd)
  | [], ret, _, m, t => some (ret, m, t, [])
  | (ax, tgt) :: rest, ret, i, m, t =>
    match gotoWaitAxis link fix ax tgt i (dl - (t : ℤ)).toNat
        (some (-1000)) (some (-2000)) ret m t with
    | none => none
    | some (r, m1, t1, tr1) =>
      match gotoWaitAll link fix dl rest r (i + 1) m1 t1 with
      | none => none
      | some (r2, m2, t2, tr2) => some (r2, m2, t2, tr1 ++ tr2)

/-- `goto` up to (but not including) the final `homed` update: length
mismatch check (-7), validation loop, command issue, and — when blocking
— the stability wait (which the source runs even if a move command was
rejected). -/
def gotoCore (link : Link) (fix : Fix) (m : Mut) (t : ℕ) (new_pos : List ℚ)
    (axes : List ℤ) (block : Bool) (timeout : ℤ) : Option (Step ℤ) :=
  let t0 := t
  if new_pos.length ≠ axes.length then some ⟨-7, m, t, []⟩
  else
    match gotoValidate link fix (new_pos.zip axes) (-9) m t with
    | none => none
    | some v =>
      if v.ret = 0 then
        let s := gotoSend link (axes.zip v.tgts) v.t
        if block then
          let dl : ℤ := (t0 : ℤ) + timeout
          match gotoWaitAll link fix dl (axes.zip v.tgts) s.1 0 v.m s.2.1 with
          | none => none
          | some (r, m2, t2, tr2) => some ⟨r, m2, t2, v.tr ++ s.2.2 ++ tr2⟩
        else some ⟨s.1, v.m, s.2.1, v.tr ++ s.2.2⟩
      else some ⟨v.ret, v.m, v.t, v.tr⟩

/-- `goto(new_pos, axes, block, timeout)`: absolute move with bounds and
keepout validation; finally, a whole-stage call that returned 0 asserts
the `homed` flag. -/
def goto (link : Link) (fix : Fix) (m : Mut) (t : ℕ) (new_pos : List ℚ)
    (axes : List ℤ) (block : Bool) (timeout : ℤ) : Option (Step ℤ) :=
  match gotoCore link fix m t new_pos axes block timeout with
  | none => none
  | some o =>
    if o.ret = 0 ∧ axes.length = fix.n_axes then
      some ⟨o.ret, { o.m with homed := some true }, o.t, o.tr⟩
    else some o

/-- The non-otter branch of `home(axis, block, timeout)`: rejects an
invalid axis locally (-3, nothing sent), sends the home command, and on a
rejection returns -2; when blocking, delegates to the waiter with the
remaining budget, otherwise returns 0. -/
def home_nonotter (link : Link) (fix : Fix) (m : Mut) (t : ℕ) (axis : ℤ)
    (block : Bool) (timeout : ℤ) : Option (Step PyRet) :=
  let t0 := t
  if axis ≠ -1 ∧ axis ∉ fix.axes then some ⟨PyRet.code (-3), m, t, []⟩
  else
    let c := Cmd.home (if axis = -1 then none else some axis)
    let acked := link.ack c t
    let t1 := t + 1
    if acked then
      if block then
        match wait_for_home_or_jog link fix m t1 axis
            (timeout - ((t1 : ℤ) - (t0 : ℤ))) with
        | none => none
        | some o => some ⟨o.ret, o.m, o.t, c :: o.tr⟩
      else some ⟨PyRet.code 0, m, t1, [c]⟩
    else some ⟨PyRet.code (-2), m, t1, [c]⟩

/-- `otter_home(safex, timeout)`: the composite two-axis homing sequence —
jog axis 2 to its motor-end extreme, home axis 1, validate axis 1's
length (failure → -5), move axis 1 to the safe x offset, home axis 2,
then re-run the whole-stage length check; any step's failure
short-circuits the rest and its result propagates. -/
def otter_home (link : Link) (fix : Fix) (m : Mut) (t : ℕ) (safex : ℚ)
    (timeout : ℤ) : Option (Step PyRet) :=
  let t0 := t
  match jog link fix m t 2 'b' true timeout with
  | none => none
  | some o1 =>
    if o1.ret = PyRet.code 0 then
      match home_nonotter link fix o1.m o1.t 1 true
          (timeout - ((o1.t : ℤ) - (t0 : ℤ))) with
      | none => none
      | some o2 =>
        match o2.ret with
        | PyRet.list ls =>
          match ls with
          | [] => none
          | d1 :: _ =>
            match check_lengths link fix o2.m o2.t 1 with
            | none => none
            | some o3 =>
              if o3.ret = 0 then
                match goto link fix o3.m o3.t [safex] [1] true
                    (timeout - ((o3.t : ℤ) - (t0 : ℤ))) with
                | none => none
                | some o4 =>
                  if o4.ret = 0 then
                    match home_nonotter link fix o4.m o4.t 2 true
                        (timeout - ((o4.t : ℤ) - (t0 : ℤ))) with
                    | none => none
                    | some o5 =>
                      match o5.ret with
                      | PyRet.list ls2 =>
                        match ls2 with
                        | [] => none
                        | d2 :: _ =>
                          match check_lengths link fix o5.m o5.t (-1) with
                          | none => none
                          | some o6 =>
                            some ⟨PyRet.list [d1, d2], o6.m, o6.t,
                              o1.tr ++ o2.tr ++ o3.tr ++ o4.tr ++ o5.tr ++ o6.tr⟩
                      | PyRet.code c =>
                        some ⟨PyRet.code c, o5.m, o5.t,
                          o1.tr ++ o2.tr ++ o3.tr ++ o4.tr ++ o5.tr⟩
                  else
                    some ⟨PyRet.code o4.ret, o4.m, o4.t,
                      o1.tr ++ o2.tr ++ o3.tr ++ o4.tr⟩
              else some ⟨PyRet.code (-5), o3.m, o3.t, o1.tr ++ o2.tr ++ o3.tr⟩
        | PyRet.code c => some ⟨PyRet.code c, o2.m, o2.t, o1.tr ++ o2.tr⟩
    else some o1

/-- `home(axis, block, timeout, enable_otter)`: dispatches to the
composite otter sequence (whole-stage blocking only, -4 otherwise) when
"otter" is in `extra` and otter is enabled, else to the direct home. -/
def home (link : Link) (fix : Fix) (m : Mut) (t : ℕ) (axis : ℤ)
    (block : Bool) (timeout : ℤ) (enable_otter : Bool) : Option (Step PyRet) :=
  if fix.hasOtter ∧ enable_otter then
    if axis = -1 ∧ block then otter_home link fix m t otter_safe_x timeout
    else some ⟨PyRet.code (-4), m, t, []⟩
  else home_nonotter link fix m t axis block timeout

/-- The per-axis branch of `estop`: one stop command per axis, where a
rejection (-2) sticks — a later acknowledged stop does not overwrite it. -/
def estopLoop (link : Link) : List ℤ → ℤ → ℕ → ℤ × ℕ × List Cmd
  | [], ret, t => (ret, t, [])
  | ax :: rest, ret, t =>
    let acked := link.ack (Cmd.stop (some ax)) t
    let ret1 : ℤ := if acked then (if ret ≠ -2 then 0 else ret) else -2
    let o := estopLoop link rest ret1 (t + 1)
    (o.1, o.2.1, Cmd.stop (some ax) :: o.2.2)

/-- `estop(axes)`: a single whole-stage stop command when every axis is
targeted, else one stop command per axis with sticky rejection. -/
def estop (link : Link) (fix : Fix) (t : ℕ) (axes : List ℤ) :
    ℤ × ℕ × List Cmd :=
  if axes.length = fix.n_axes then
    (if link.ack (Cmd.stop none) t then 0 else -2, t + 1, [Cmd.stop none])
  else estopLoop link axes (-9) t

/-- The axis-discovery loop of `connect`: axis i+1 is present when bit i
of the controller bitmask is set (up to 3 axes). -/
def discoverAxes (bits : ℕ) : List ℤ :=
  (List.range 3).filterMap fun i => if bits.testBit i then some ((i : ℤ) + 1) else none

/-- The per-axis fill loop of `connect` (run only when the discovered axis
count matches the expected-length count): reads each axis's position
(`None` stays unknown — the source catches the failed division) and
converts the user's expected length to steps.  Returns (positions,
expected lengths, clock, trace). -/
def connectFill (link : Link) (spm : ℚ) :
    List (ℤ × ℚ) → ℕ → List (Option ℚ) × List (Option ℚ) × ℕ × List Cmd
  | [], t => ([], [], t, [])
  | (ax, ulen) :: rest, t =>
    let here := link.r ax t
    let pos : Option ℚ := here.map fun h => (h : ℚ) / spm
    let o := connectFill link spm rest (t + 1)
    (pos :: o.1, some (ulen * spm) :: o.2.1, o.2.2.1, Cmd.getR ax :: o.2.2.2)

/-- Result of `connect`: return code, the driver state it built (when the
bitmask read succeeded), clock and trace. -/
structure ConnOut where
  ret : ℤ
  st : Option (Fix × Mut)
  t : ℕ
  tr : List Cmd
  deriving DecidableEq, Repr

/-- `connect()`: reads the controller bitmask (a failure of that read is
the caught link-level exception, code -1), discovers the axes, and — only
when the discovered count equals the caller-supplied expected-length
count — fills positions and expected lengths and runs the whole-stage
length check, returning 0; on a count mismatch the discovered state is
kept but the result stays -1. -/
def connect (link : Link) (user_lengths : List ℚ) (koz : List (List ℚ))
    (spm : ℚ) (otterFlag : Bool) (t : ℕ) : ConnOut :=
  match link.e t with
  | none => ⟨-1, none, t + 1, [Cmd.getE]⟩
  | some bits =>
    let axes := discoverAxes bits
    let n := axes.length
    if n ≠ user_lengths.length then
      let fx : Fix := ⟨axes, n, spm, List.replicate n none, otterFlag⟩
      let m0 : Mut := ⟨List.replicate n none, List.replicate n none, koz, none⟩
      ⟨-1, some (fx, m0), t + 1, [Cmd.getE]⟩
    else
      let fill := connectFill link spm (axes.zip user_lengths) (t + 1)
      let fx : Fix := ⟨axes, n, spm, fill.2.1, otterFlag⟩
      let m0 : Mut := ⟨fill.1, List.replicate n none, koz, none⟩
      match check_lengths link fx m0 fill.2.2.1 (-1) with
      | none => ⟨-1, some (fx, m0), fill.2.2.1, Cmd.getE :: fill.2.2.2⟩
      | some o => ⟨0, some (fx, o.m), o.t, Cmd.getE :: (fill.2.2.2 ++ o.tr)⟩

/-! Concrete links and driver states used in the scenario theorems below.
`constLink` is a mock link with one axis controller, a constant length
response, position responses of 0, and every command acknowledged. -/

/-- Mock link: discovery bitmask 1, constant length reading, position 0,
all commands acknowledged. -/
def constLink (len : Option ℤ) : Link :=
  ⟨fun _ => some 1, fun _ _ => len, fun _ _ => some 0, fun _ _ => true⟩

/-- Mock link reporting measured length 756 mm · 6400 steps/mm. -/
def link756 : Link := constLink (some (756 * 6400))

/-- Mock link reporting measured length 770 mm · 6400 steps/mm. -/
def link770 : Link := constLink (some (770 * 6400))

/-- Mock link reporting measured length 754 mm · 6400 steps/mm. -/
def link754 : Link := constLink (some (754 * 6400))

/-- Mock link reporting measured length 750 mm · 6400 steps/mm. -/
def link750 : Link := constLink (some (750 * 6400))

/-- Mock link whose length reads answer Python None. -/
def linkNone : Link := constLink none

/-- Mock link reporting measured length 500 steps. -/
def link500 : Link := constLink (some 500)

/-- Mock link reporting measured length 1000 mm · 6400 steps/mm. -/
def link1000 : Link := constLink (some (1000 * 6400))

/-- Mock link with discovery bitmask 3 (axes 1 and 2 present). -/
def linkTwoAxes : Link :=
  ⟨fun _ => some 3, fun _ _ => some (750 * 6400), fun _ _ => some 0, fun _ _ => true⟩

/-- Driver state: one axis, 6400 steps/mm, expected length 750 mm. -/
def fix750 : Fix := ⟨[1], 1, 6400, [some (750 * 6400)], false⟩

/-- Fresh mutable state for `fix750` with an empty keepout list. -/
def mEmpty1 : Mut := ⟨[none], [none], [[]], none⟩

/-- Mutable state for `fix750` with keepout [20, 30] mm and `homed` true. -/
def mTrue1 : Mut := ⟨[some 7], [none], [[20, 30]], some true⟩

/-- Mutable state for `fix750` with keepout [20, 30] mm and `homed` unset. -/
def mKoz1 : Mut := ⟨[some 7], [none], [[20, 30]], none⟩

/-- Driver state with no discovered axes (controller bitmask 0). -/
def fixEmpty : Fix := ⟨[], 0, 6400, [], false⟩

/-- Mutable state matching `fixEmpty`. -/
def mEmpty0 : Mut := ⟨[], [], [], none⟩

/-- Two-axis driver state with steps_per_mm 1 (for the position-cache
indexing scenario). -/
def fixT : Fix := ⟨[1, 2], 2, 1, [some 480, some 480], false⟩

/-- Mutable state for `fixT`: distinct cached positions 7 mm and 9 mm. -/
def mT : Mut := ⟨[some 7, some 9], [none, none], [[20, 30], [20, 30]], none⟩

/-- Mock link for `fixT`: lengths 480, positions 100, all acknowledged. -/
def linkT : Link :=
  ⟨fun _ => some 3, fun _ _ => some 480, fun _ _ => some 100, fun _ _ => true⟩

/-- Otter-variant driver state: axes 1 and 2, 6400 steps/mm, expected
lengths 750 mm each. -/
def fixOtter : Fix :=
  ⟨[1, 2], 2, 6400, [some (750 * 6400), some (750 * 6400)], true⟩

/-- Fresh mutable state for `fixOtter`. -/
def mOtter : Mut := ⟨[none, none], [none, none], [[], []], none⟩

/-- Mock link for the otter scenario: axis 1 reports length 5000000 steps
(not the expected 750 mm · 6400 = 4800000), axis 2 reports 0, positions 0,
all commands acknowledged. -/
def linkOtter : Link :=
  ⟨fun _ => some 3, fun ax _ => if ax = 1 then some 5000000 else some 0,
    fun _ _ => some 0, fun _ _ => true⟩

/-- Three-axis driver state for the estop scenario. -/
def fix3 : Fix := ⟨[1, 2, 3], 3, 6400, [some 1, some 1, some 1], false⟩

/-- Mock link that rejects exactly the per-axis stop command for axis 2. -/
def linkStop2 : Link :=
  ⟨fun _ => some 7, fun _ _ => some 0, fun _ _ => some 0,
    fun c _ => c != Cmd.stop (some 2)⟩

/-- The bounds/keepout guard of `goto`, as a predicate on the call's
inputs: with `L ax` the axis length the link reports, the computed step
target (rounded exactly as `goto` rounds it) lies outside
[end_buffer, length − end_buffer] or inside the axis's keepout interval,
both converted to steps at use time. -/
def violatesGuard (fix : Fix) (m : Mut) (L : ℤ → ℤ) (np : ℚ) (ax : ℤ) : Prop :=
  let tgt : ℚ := (pyRound (np * fix.steps_per_mm) : ℚ)
  let ebs := end_buffers * fix.steps_per_mm
  let koz := (m.keepout_zones.get? (fix.axes.indexOf ax)).getD []
  ¬(ebs ≤ tgt ∧ tgt ≤ (L ax : ℚ) - ebs) ∨
    (kozMin koz * fix.steps_per_mm ≤ tgt ∧ tgt ≤ kozMax koz * fix.steps_per_mm)

instance (fix : Fix) (m : Mut) (L : ℤ → ℤ) (np : ℚ) (ax : ℤ) :
    Decidable (violatesGuard fix m L np ax) := by
  unfold violatesGuard
  infer_instance

/-- No home command of any form occurs in the trace. -/
def homeFree (tr : List Cmd) : Prop := ∀ a, Cmd.home a ∉ tr

/-- A length poll that does not finish the axis: at tick τ the link's
length read answers Python None or a negative value, so the wait loop of
`wait_for_home_or_jog` keeps polling. -/
def pollMiss (link : Link) (ax : ℤ) (τ : ℕ) : Prop :=
  ∀ v, link.l ax τ = some v → v < 0

/-- Mock link whose length reads always answer -1: no axis ever reports a
non-negative length, so every wait times out. -/
def linkNeg : Link := constLink (some (-1))

/-! Theorems. -/

/-- C4 counterexample: with steps-per-mm 6400, expected length 750 mm and
allowed deviation 5 mm, a measured length of 756·6400 steps makes
`check_lengths` return -1, not 0 as the claim states — 756 mm lies outside
the tolerance interval around 750 mm. -/
theorem check_lengths_756_not_ok :
    (check_lengths link756 fix750 mEmpty1 0 (-1)).map (fun o => o.ret) =
      some (-1) := by decide

/-- C4 (amended): with steps-per-mm 6400, expected length 750 mm and
allowed deviation 5 mm, measured lengths of 750·6400 and 754·6400 steps
(strictly inside the open interval (745 mm, 755 mm) of steps) make
`check_lengths` return 0, while 756·6400 and 770·6400 steps make it
return -1. -/
theorem check_lengths_tolerance_scenarios :
    (check_lengths link750 fix750 mEmpty1 0 (-1)).map (fun o => o.ret) = some 0 ∧
    (check_lengths link754 fix750 mEmpty1 0 (-1)).map (fun o => o.ret) = some 0 ∧
    (check_lengths link756 fix750 mEmpty1 0 (-1)).map (fun o => o.ret) = some (-1) ∧
    (check_lengths link770 fix750 mEmpty1 0 (-1)).map (fun o => o.ret) = some (-1) :=
  ⟨by decide, by decide, by decide, by decide⟩

/-- C8 (code-bug exhibit): a blocking jog on a valid axis whose command is
acknowledged and whose axis finishes at once with measured length 500
returns the length list [500] — neither 0 nor a negative error code,
contrary to the claim and to jog's own doc comment ("0 for success"). -/
theorem jog_returns_length_list :
    (jog link500 fix750 mEmpty1 0 1 'b' true 10).map (fun o => o.ret) =
      some (PyRet.list [500]) := by decide

/-- C3 counterexample: the link is reachable (bitmask 3 parses) and axis
discovery completes with axes [1, 2], but because only one expected
length was supplied, `connect` returns -1 instead of the claimed 0. -/
theorem connect_mismatch_fails :
    (connect linkTwoAxes [750] [[]] 6400 false 0).ret = -1 ∧
    ((connect linkTwoAxes [750] [[]] 6400 false 0).st).map (fun p => p.1.axes) =
      some [1, 2] :=
  ⟨by decide, by decide⟩

/-- C5 counterexample: a single-axis `check_lengths` that fails with -1
leaves `homed` true, and a whole-stage blocking `home` that succeeds
(returns the measured-length list) can leave `homed` false, because the
post-home length check fails on the out-of-tolerance length. -/
theorem homed_flag_claim_fails :
    ((check_lengths link756 fix750 mTrue1 0 1).map fun o => (o.ret, o.m.homed)) =
      some (-1, some true) ∧
    ((home link756 fix750 mTrue1 0 (-1) true 10 true).map fun o => (o.ret, o.m.homed)) =
      some (PyRet.list [756 * 6400], some false) :=
  ⟨by decide, by decide⟩

/-- C6 counterexample: a single-axis `check_lengths` whose length read
answers None (the unknowable classification, -2) sets the aggregate
`homed` flag to false instead of leaving it untouched as claimed. -/
theorem single_axis_unknowable_flips_homed :
    ((check_lengths linkNone fix750 mTrue1 0 1).map fun o => (o.ret, o.m.homed)) =
      some (-2, some false) := by decide

/-- C7 counterexample: with no discovered axes and the whole-stage axis
argument (-1), `wait_for_home_or_jog` returns the internal code -9 — not
-3, not -1 and not a list of lengths, so the claim's three-way outcome
description misses this case. -/
theorem wait_no_axes_returns_neg_nine :
    ((wait_for_home_or_jog link756 fixEmpty mEmpty0 0 (-1) 5).map fun o => o.ret) =
      some (PyRet.code (-9)) := by decide

/-- C5 (amended): after every successful whole-stage `goto` (result 0 with
as many targeted axes as the stage has), the homed flag is true; and
after every whole-stage `check_lengths` call that fails, the homed flag
is false.  (The original claim's other halves fail: a successful
whole-stage home can leave homed false because the post-home length check
may fail, and a failing single-axis check leaves homed untouched unless
the length was unknowable — see the counterexample.) -/
theorem goto_and_whole_check_set_homed :
    (∀ (link : Link) (fix : Fix) (m : Mut) (t : ℕ) (np : List ℚ) (axes : List ℤ)
        (block : Bool) (timeout : ℤ) (o : Step ℤ),
      goto link fix m t np axes block timeout = some o → o.ret = 0 →
      axes.length = fix.n_axes → o.m.homed = some true) ∧
    (∀ (link : Link) (fix : Fix) (m : Mut) (t : ℕ) (o : Step ℤ),
      check_lengths link fix m t (-1) = some o → o.ret ≠ 0 →
      o.m.homed = some false) := by
  constructor
  · intro link fix m t np axes block timeout o h hret hlen
    unfold goto at h
    cases hc : gotoCore link fix m t np axes block timeout with
    | none => rw [hc] at h; exact Option.noConfusion h
    | some o' =>
      simp only [hc] at h
      by_cases hcond : o'.ret = 0 ∧ axes.length = fix.n_axes
      · rw [if_pos hcond] at h
        cases h
        rfl
      · rw [if_neg hcond] at h
        cases h
        exact absurd ⟨hret, hlen⟩ hcond
  · intro link fix m t o h hret
    unfold check_lengths at h
    simp only [if_true, ite_true, reduceIte] at h
    cases hc : checkLoop link fix fix.axes (-9) m t with
    | none => simp only [hc] at h; exact Option.noConfusion h
    | some o' =>
      simp only [hc] at h
      cases h
      simp only [Step.ret] at hret
      simp [hret]

/-- C5 witness: a concrete successful whole-stage goto ends with homed
true, and a concrete failing whole-stage check_lengths ends with homed
false. -/
theorem goto_and_whole_check_set_homed_w :
    (∃ o : Step ℤ, goto link1000 fix750 mKoz1 0 [100] [1] false 10 = some o ∧
      o.m.homed = some true) ∧
    (∃ o : Step ℤ, check_lengths link756 fix750 mEmpty1 0 (-1) = some o ∧
      o.m.homed = some false) := by
  constructor
  · have h : goto link1000 fix750 mKoz1 0 [100] [1] false 10 =
        some ⟨0, ⟨[some 7], [none], [[20, 30]], some true⟩, 2,
          [Cmd.getL 1, Cmd.goto 1 640000]⟩ := by decide
    exact ⟨_, h, goto_and_whole_check_set_homed.1 _ _ _ _ _ _ _ _ _ h (by decide) (by decide)⟩
  · have h : check_lengths link756 fix750 mEmpty1 0 (-1) =
        some ⟨-1, ⟨[none], [some 4838400], [[]], some false⟩, 1, [Cmd.getL 1]⟩ := by decide
    exact ⟨_, h, goto_and_whole_check_set_homed.2 _ _ _ _ _ h (by decide)⟩

/-- A `check_lengths` loop over a single axis touches the homed flag only
in its unknowable branch (code -2), where it sets it false. -/
lemma checkLoop_single_homed (link : Link) (fix : Fix) (ax : ℤ) (m : Mut) (t : ℕ)
    (r0 : ℤ) (o : Step ℤ) (h : checkLoop link fix [ax] r0 m t = some o) :
    (o.ret ≠ -2 → o.m.homed = m.homed) ∧ (o.ret = -2 → o.m.homed = some false) := by
  simp only [checkLoop] at h
  split at h
  · split at h
    · split at h
      · split at h
        · cases h
          refine ⟨fun _ => rfl, fun hx => ?_⟩
          simp at hx
        · cases h
          refine ⟨fun _ => rfl, fun hx => ?_⟩
          simp at hx
      · exact Option.noConfusion h
    · cases h
      refine ⟨fun hx => ?_, fun _ => rfl⟩
      simp at hx
  · cases h
    refine ⟨fun hx => ?_, fun _ => rfl⟩
    simp at hx

/-- C6 (amended): a single-axis `check_lengths` call leaves the aggregate
homed flag unchanged when the classification is validated (0), invalid
(-1) or invalid-axis (-3), but the unknowable classification (-2) sets it
false; a whole-stage call always writes homed := (overall result = 0). -/
theorem check_lengths_homed_frame :
    (∀ (link : Link) (fix : Fix) (m : Mut) (t : ℕ) (axis : ℤ) (o : Step ℤ),
      axis ≠ -1 → check_lengths link fix m t axis = some o →
      (o.ret ≠ -2 → o.m.homed = m.homed) ∧ (o.ret = -2 → o.m.homed = some false)) ∧
    (∀ (link : Link) (fix : Fix) (m : Mut) (t : ℕ) (o : Step ℤ),
      check_lengths link fix m t (-1) = some o →
      o.m.homed = some (decide (o.ret = 0))) := by
  constructor
  · intro link fix m t axis o haxis h
    unfold check_lengths at h
    by_cases hmem : axis ∈ fix.axes
    · simp only [if_neg haxis, if_pos hmem] at h
      cases hc : checkLoop link fix [axis] (-9) m t with
      | none => rw [hc] at h; exact Option.noConfusion h
      | some o' =>
        rw [hc] at h
        cases h
        exact checkLoop_single_homed link fix axis m t (-9) _ hc
    · simp only [if_neg haxis, if_neg hmem, checkLoop] at h
      cases h
      refine ⟨fun _ => rfl, fun hx => ?_⟩
      simp at hx
  · intro link fix m t o h
    unfold check_lengths at h
    simp only [if_true, ite_true, reduceIte] at h
    cases hc : checkLoop link fix fix.axes (-9) m t with
    | none => simp only [hc] at h; exact Option.noConfusion h
    | some o' =>
      simp only [hc] at h
      cases h
      rfl

/-- C6 witness: a concrete single-axis check that fails with -1 leaves the
homed flag exactly as it was. -/
theorem check_lengths_homed_frame_w :
    ∃ o : Step ℤ, check_lengths link756 fix750 mTrue1 0 1 = some o ∧
      o.m.homed = mTrue1.homed := by
  have h : check_lengths link756 fix750 mTrue1 0 1 =
      some ⟨-1, ⟨[some 7], [some 4838400], [[20, 30]], some true⟩, 1, [Cmd.getL 1]⟩ := by
    decide
  exact ⟨_, h, (check_lengths_homed_frame.1 _ _ _ _ _ _ (by decide) h).1 (by decide)⟩

/-- A rejection (incoming or at any axis of the list) forces the per-axis
estop fold to end at -2: rejections are sticky. -/
lemma estopLoop_stuck (link : Link) : ∀ (axs : List ℤ) (r0 : ℤ) (t : ℕ),
    (r0 = -2 ∨ ∃ i, i < axs.length ∧ link.ack (Cmd.stop (some (axs.getD i 0))) (t + i) = false) →
    (estopLoop link axs r0 t).1 = -2
  | [], r0, t, h => by
    rcases h with h | ⟨i, hi, _⟩
    · simp [estopLoop, h]
    · simp at hi
  | ax :: rest, r0, t, h => by
    simp only [estopLoop]
    apply estopLoop_stuck link rest _ (t + 1)
    rcases h with h | ⟨i, hi, hrej⟩
    · subst h
      left
      simp
    · cases i with
      | zero =>
        simp only [List.getD_cons_zero, Nat.add_zero] at hrej
        left
        simp [hrej]
      | succ j =>
        right
        refine ⟨j, by simpa using hi, ?_⟩
        simpa [Nat.add_comm, Nat.add_assoc, Nat.add_left_comm] using hrej

/-- With every stop command of the list acknowledged and no prior sticky
rejection, the per-axis estop fold ends at 0. -/
lemma estopLoop_ok (link : Link) : ∀ (axs : List ℤ) (r0 : ℤ) (t : ℕ),
    axs ≠ [] → r0 ≠ -2 →
    (∀ i, i < axs.length → link.ack (Cmd.stop (some (axs.getD i 0))) (t + i) = true) →
    (estopLoop link axs r0 t).1 = 0
  | [], _, _, hne, _, _ => absurd rfl hne
  | ax :: rest, r0, t, _, hr0, h => by
    have h0 := h 0 (by simp)
    simp only [List.getD_cons_zero, Nat.add_zero] at h0
    simp only [estopLoop, h0, if_true, if_pos hr0]
    cases hrest : rest with
    | nil => simp [hrest, estopLoop]
    | cons b bs =>
      rw [← hrest]
      apply estopLoop_ok link rest 0 (t + 1) (by simp [hrest]) (by decide)
      intro j hj
      have := h (j + 1) (by simpa using hj)
      simpa [Nat.add_comm, Nat.add_assoc, Nat.add_left_comm] using this

/-- C9: for every estop call over a per-axis subset (the per-axis branch,
taken when the targeted list is not the whole stage), any rejected stop
command makes the overall result -2, no matter how many later per-axis
stops succeed; and the result is 0 exactly when the list is nonempty and
every stop command is acknowledged. -/
theorem estop_sticky_rejection (link : Link) (fix : Fix) (t : ℕ) (axes : List ℤ)
    (hsub : axes.length ≠ fix.n_axes) :
    ((∃ i, i < axes.length ∧ link.ack (Cmd.stop (some (axes.getD i 0))) (t + i) = false) →
      (estop link fix t axes).1 = -2) ∧
    (axes ≠ [] →
      (∀ i, i < axes.length → link.ack (Cmd.stop (some (axes.getD i 0))) (t + i) = true) →
      (estop link fix t axes).1 = 0) := by
  unfold estop
  rw [if_neg hsub]
  exact ⟨fun h => estopLoop_stuck link axes (-9) t (Or.inr h),
    fun hne h => estopLoop_ok link axes (-9) t hne (by decide) h⟩

/-- C9 witness: stopping axes 2 and 3 of a three-axis stage where axis 2's
stop is rejected and axis 3's (later) stop succeeds yields -2. -/
theorem estop_sticky_rejection_w : (estop linkStop2 fix3 0 [2, 3]).1 = -2 :=
  (estop_sticky_rejection linkStop2 fix3 0 [2, 3] (by decide)).1
    ⟨0, by decide, by decide⟩

/-- The expected lengths built by connect's fill loop are exactly the
user-supplied lengths converted to steps. -/
lemma connectFill_expected (link : Link) (spm : ℚ) : ∀ (prs : List (ℤ × ℚ)) (t : ℕ),
    (connectFill link spm prs t).2.1 = prs.map (fun p => some (p.2 * spm))
  | [], _ => rfl
  | (ax, ulen) :: rest, t => by
    simp only [connectFill, List.map_cons]
    exact congrArg _ (connectFill_expected link spm rest (t + 1))

/-- When every axis to check has an expected length on record, the
check loop cannot raise. -/
lemma checkLoop_ne_none (link : Link) (fix : Fix) : ∀ (axs : List ℤ) (r0 : ℤ) (m : Mut) (t : ℕ),
    (∀ ax ∈ axs, ∃ el, fix.expected_lengths.get? (fix.axes.indexOf ax) = some (some el)) →
    checkLoop link fix axs r0 m t ≠ none
  | [], _, _, _, _ => by simp [checkLoop]
  | ax :: rest, r0, m, t, h => by
    obtain ⟨el, hel⟩ := h ax (by simp)
    simp only [checkLoop, hel]
    cases hL : link.l ax t with
    | none => simp
    | some d =>
      by_cases hd : 0 < d
      · simp only [if_pos hd]
        by_cases hcmp : (d : ℚ) < el + allowed_length_deviation * fix.steps_per_mm ∧
            el - allowed_length_deviation * fix.steps_per_mm < (d : ℚ)
        · simp only [if_pos hcmp]
          have := checkLoop_ne_none link fix rest 0
            { m with measured_lengths :=
                m.measured_lengths.set (fix.axes.indexOf ax) (some d) }
            (t + 1) (fun a ha => h a (by simp [ha]))
          cases hrec : checkLoop link fix rest 0
              { m with measured_lengths :=
                  m.measured_lengths.set (fix.axes.indexOf ax) (some d) } (t + 1) with
          | none => exact absurd hrec this
          | some o => simp
        · simp [if_neg hcmp]
      · simp [if_neg hd]

/-- A whole-stage `check_lengths` cannot raise when every discovered axis
has an expected length on record. -/
lemma check_lengths_all_ne_none (link : Link) (fix : Fix) (m : Mut) (t : ℕ)
    (hok : ∀ ax ∈ fix.axes, ∃ el,
      fix.expected_lengths.get? (fix.axes.indexOf ax) = some (some el)) :
    check_lengths link fix m t (-1) ≠ none := by
  unfold check_lengths
  simp only [if_true, ite_true, reduceIte]
  cases hcl : checkLoop link fix fix.axes (-9) m t with
  | none => exact absurd hcl (checkLoop_ne_none link fix fix.axes (-9) m t hok)
  | some o => simp

/-- Every discovered axis indexes a converted expected length in the list
the fill loop builds. -/
lemma expected_map_ok (axes : List ℤ) (ul : List ℚ) (spm : ℚ)
    (hlen : axes.length = ul.length) (ax : ℤ) (hax : ax ∈ axes) :
    ∃ el, ((axes.zip ul).map (fun p => some (p.2 * spm))).get? (axes.indexOf ax) =
      some (some el) := by
  have hidx : axes.indexOf ax < axes.length := List.indexOf_lt_length.mpr hax
  have hlz : (axes.zip ul).length = axes.length := by
    rw [List.length_zip, hlen, min_self]
  have hidx2 : axes.indexOf ax < (axes.zip ul).length := by rw [hlz]; exact hidx
  obtain ⟨p, hp⟩ : ∃ p, (axes.zip ul).get? (axes.indexOf ax) = some p :=
    ⟨_, List.get?_eq_get hidx2⟩
  exact ⟨p.2 * spm, by rw [List.get?_map, hp]; rfl⟩

/-- C3 (amended): `connect` returns 0 exactly when the bitmask read
succeeds AND the discovered axis count equals the number of expected
lengths supplied — regardless of the length-check outcome; a failed
bitmask read (the caught link exception) returns -1, and a count mismatch
also returns -1 even though the link was reachable and discovery
completed (the discovered axes are kept in the state). -/
theorem connect_success_iff_counts_match :
    (∀ (link : Link) (ul : List ℚ) (koz : List (List ℚ)) (spm : ℚ) (fl : Bool) (t : ℕ),
      link.e t = none → (connect link ul koz spm fl t).ret = -1) ∧
    (∀ (link : Link) (ul : List ℚ) (koz : List (List ℚ)) (spm : ℚ) (fl : Bool)
        (t : ℕ) (bits : ℕ), link.e t = some bits →
      (discoverAxes bits).length = ul.length →
      (connect link ul koz spm fl t).ret = 0) ∧
    (∀ (link : Link) (ul : List ℚ) (koz : List (List ℚ)) (spm : ℚ) (fl : Bool)
        (t : ℕ) (bits : ℕ), link.e t = some bits →
      (discoverAxes bits).length ≠ ul.length →
      (connect link ul koz spm fl t).ret = -1 ∧
      ((connect link ul koz spm fl t).st).map (fun p => p.1.axes) =
        some (discoverAxes bits)) := by
  refine ⟨?_, ?_, ?_⟩
  · intro link ul koz spm fl t he
    unfold connect
    rw [he]
  · intro link ul koz spm fl t bits he hlen
    unfold connect
    simp only [he]
    rw [if_neg (by simp [hlen])]
    split
    · next heq =>
      exfalso
      refine check_lengths_all_ne_none link _ _ _ ?_ heq
      intro ax hax
      show ∃ el, ((connectFill link spm ((discoverAxes bits).zip ul) (t + 1)).2.1).get?
        ((discoverAxes bits).indexOf ax) = some (some el)
      rw [connectFill_expected]
      exact expected_map_ok (discoverAxes bits) ul spm hlen ax hax
    · next o heq => rfl
  · intro link ul koz spm fl t bits he hlen
    unfold connect
    simp only [he]
    rw [if_pos hlen]
    exact ⟨rfl, rfl⟩

/-- C3 witness: a concrete connect with matching counts returns 0, at a
link whose reported length happens to satisfy the length check; and one
whose length check fails still returns 0 (the outcome is independent of
the length check). -/
theorem connect_success_iff_counts_match_w :
    (connect link750 [750] [[]] 6400 false 0).ret = 0 ∧
    (connect link770 [750] [[]] 6400 false 0).ret = 0 :=
  ⟨connect_success_iff_counts_match.2.1 link750 [750] [[]] 6400 false 0 1 rfl (by decide),
   connect_success_iff_counts_match.2.1 link770 [750] [[]] 6400 false 0 1 rfl (by decide)⟩

/-- Every iteration of the `check_lengths` loop costs one clock tick, so
the loop never moves the clock backwards. -/
lemma checkLoop_clock (link : Link) (fix : Fix) :
    ∀ (prs : List ℤ) (r0 : ℤ) (m : Mut) (t : ℕ) (o : Step ℤ),
    checkLoop link fix prs r0 m t = some o → t ≤ o.t
  | [], r0, m, t, o, h => by
    simp only [checkLoop, Option.some.injEq] at h
    subst h
    exact le_refl t
  | ax :: rest, r0, m, t, o, h => by
    simp only [checkLoop] at h
    split at h
    · split at h
      · split at h
        · split at h
          · split at h
            · next o2 hrec =>
              cases h
              have hr := checkLoop_clock link fix rest 0 _ (t + 1) o2 hrec
              show t ≤ o2.t
              omega
            · exact Option.noConfusion h
          · cases h
            show t ≤ t + 1
            omega
        · exact Option.noConfusion h
      · cases h
        show t ≤ t + 1
        omega
    · cases h
      show t ≤ t + 1
      omega

/-- `check_lengths` never moves the clock backwards. -/
lemma check_lengths_clock (link : Link) (fix : Fix) (m : Mut) (t : ℕ) (axis : ℤ)
    (o : Step ℤ) (h : check_lengths link fix m t axis = some o) : t ≤ o.t := by
  unfold check_lengths at h
  by_cases ha : axis = -1
  · simp only [if_pos ha] at h
    cases hcl : checkLoop link fix fix.axes (-9) m t with
    | none => rw [hcl] at h; exact Option.noConfusion h
    | some o2 =>
      simp only [hcl] at h
      cases h
      show t ≤ o2.t
      exact checkLoop_clock link fix fix.axes (-9) m t o2 hcl
  · by_cases hm : axis ∈ fix.axes
    · simp only [if_neg ha, if_pos hm] at h
      cases hcl : checkLoop link fix [axis] (-9) m t with
      | none => rw [hcl] at h; exact Option.noConfusion h
      | some o2 =>
        simp only [hcl] at h
        cases h
        exact checkLoop_clock link fix [axis] (-9) m t _ hcl
    · simp only [if_neg ha, if_neg hm, checkLoop, Option.some.injEq] at h
      cases h
      exact le_refl t

/-- One axis's wait loop either finishes with ret 0 and a singleton dims
contribution — the very length the link reported with a non-negative
value at some poll tick inside the loop's fuel window — or times out with
nothing, consuming all its fuel (ret -1) because every poll tick in the
window answered None or a negative length. -/
lemma waitAxisLoop_spec (link : Link) (fix : Fix) (axisArg ax : ℤ) :
    ∀ (fuel : ℕ) (m : Mut) (t : ℕ) (r : ℤ) (ds : List ℤ) (m' : Mut) (t' : ℕ) (tr : List Cmd),
    waitAxisLoop link fix axisArg ax fuel m t = some (r, ds, m', t', tr) →
    (r = 0 ∧ t ≤ t' ∧ ∃ v τ, ds = [v] ∧ 0 ≤ v ∧ t ≤ τ ∧ τ < t + fuel ∧
      link.l ax τ = some v) ∨
    (r = -1 ∧ ds = [] ∧ t' = t + fuel ∧
      ∀ τ, t ≤ τ → τ < t + fuel → pollMiss link ax τ)
  | 0, m, t, r, ds, m', t', tr, h => by
    simp only [waitAxisLoop, Option.some.injEq, Prod.mk.injEq] at h
    obtain ⟨h1, h2, _, h4, _⟩ := h
    exact Or.inr ⟨h1.symm, h2.symm, by omega, fun τ h5 h6 => absurd h6 (by omega)⟩
  | fuel + 1, m, t, r, ds, m', t', tr, h => by
    simp only [waitAxisLoop] at h
    split at h
    · next v hL =>
      split at h
      · next hv =>
        split at h
        · exact Option.noConfusion h
        · split at h
          · split at h
            · exact Option.noConfusion h
            · next o2 hck =>
              simp only [Option.some.injEq, Prod.mk.injEq] at h
              obtain ⟨h1, h2, _, h4, _⟩ := h
              have hclk := check_lengths_clock link fix _ (t + 1 + 1) ax o2 hck
              exact Or.inl ⟨h1.symm, by omega, v, t, h2.symm, hv, le_refl t, by omega, hL⟩
          · simp only [Option.some.injEq, Prod.mk.injEq] at h
            obtain ⟨h1, h2, _, h4, _⟩ := h
            exact Or.inl ⟨h1.symm, by omega, v, t, h2.symm, hv, le_refl t, by omega, hL⟩
      · next hv =>
        split at h
        · exact Option.noConfusion h
        · next r2 ds2 m2 t2 tr2 hrec =>
          simp only [Option.some.injEq, Prod.mk.injEq] at h
          obtain ⟨h1, h2, _, h4, _⟩ := h
          rcases waitAxisLoop_spec link fix axisArg ax fuel m (t + 1) r2 ds2 m2 t2 tr2 hrec with
            ⟨hr, hle, v2, τ, hds, hv0, hτ1, hτ2, hlv⟩ | ⟨hr, hds, ht, hmiss⟩
          · exact Or.inl ⟨h1 ▸ hr, by omega, v2, τ, h2 ▸ hds, hv0, by omega, by omega, hlv⟩
          · refine Or.inr ⟨h1 ▸ hr, h2 ▸ hds, by omega, fun τ hτa hτb => ?_⟩
            rcases Nat.eq_or_lt_of_le hτa with heq | hgt
            · intro w hw
              rw [← heq, hL] at hw
              injection hw with hw2
              omega
            · exact hmiss τ (by omega) (by omega)
    · next hL =>
      split at h
      · exact Option.noConfusion h
      · next r2 ds2 m2 t2 tr2 hrec =>
        simp only [Option.some.injEq, Prod.mk.injEq] at h
        obtain ⟨h1, h2, _, h4, _⟩ := h
        rcases waitAxisLoop_spec link fix axisArg ax fuel m (t + 1) r2 ds2 m2 t2 tr2 hrec with
          ⟨hr, hle, v2, τ, hds, hv0, hτ1, hτ2, hlv⟩ | ⟨hr, hds, ht, hmiss⟩
        · exact Or.inl ⟨h1 ▸ hr, by omega, v2, τ, h2 ▸ hds, hv0, by omega, by omega, hlv⟩
        · refine Or.inr ⟨h1 ▸ hr, h2 ▸ hds, by omega, fun τ hτa hτb => ?_⟩
          rcases Nat.eq_or_lt_of_le hτa with heq | hgt
          · intro w hw
            rw [← heq, hL] at hw
            exact Option.noConfusion hw
          · exact hmiss τ (by omega) (by omega)


/-- Once the deadline has passed, every remaining axis of the wait loop
immediately reports timeout: the fold returns -1 (or the incoming code
for an empty list), adding no dims and sending nothing. -/
lemma waitAxes_stuck (link : Link) (fix : Fix) (axisArg : ℤ) (dl : ℤ) :
    ∀ (axs : List ℤ) (r0 : ℤ) (dims : List ℤ) (m : Mut) (t : ℕ),
    dl ≤ (t : ℤ) →
    waitAxes link fix axisArg dl axs r0 dims m t =
      some (if axs = [] then r0 else -1, dims, m, t, [])
  | [], r0, dims, m, t, ht => by simp [waitAxes]
  | ax :: rest, r0, dims, m, t, ht => by
    have hfuel : (dl - (t : ℤ)).toNat = 0 := by omega
    simp only [waitAxes, hfuel, waitAxisLoop]
    rw [waitAxes_stuck link fix axisArg dl rest (-1) (dims ++ []) m t ht]
    simp

/-- The whole-stage wait fold either times out (-1) — an earlier axis's
timeout exhausts the shared deadline, so no later success can produce a
partial list, and the timed-out axis is one whose polls all missed for
the rest of the deadline window — or succeeds with exactly one measured
length appended per requested axis, in axis order: the k-th appended
entry is the very value the link reported with a non-negative sign for
the k-th requested axis at some tick inside the deadline window. -/
lemma waitAxes_spec (link : Link) (fix : Fix) (dl : ℤ) :
    ∀ (axs : List ℤ) (r0 : ℤ) (dims : List ℤ) (m : Mut) (t : ℕ)
      (r : ℤ) (ds : List ℤ) (m' : Mut) (t' : ℕ) (tr : List Cmd),
    axs ≠ [] →
    waitAxes link fix (-1) dl axs r0 dims m t = some (r, ds, m', t', tr) →
    (r = 0 ∧ ∃ new, ds = dims ++ new ∧ new.length = axs.length ∧
      ∀ k, k < axs.length → ∃ τ, t ≤ τ ∧ (τ : ℤ) < dl ∧ 0 ≤ new.getD k 0 ∧
        link.l (axs.getD k 0) τ = some (new.getD k 0)) ∨
    (r = -1 ∧ ∃ ax, ax ∈ axs ∧ ∃ t0, t ≤ t0 ∧
      ∀ τ, t0 ≤ τ → (τ : ℤ) < dl → pollMiss link ax τ)
  | [], _, _, _, _, _, _, _, _, _, hne, _ => absurd rfl hne
  | ax :: rest, r0, dims, m, t, r, ds, m', t', tr, _, h => by
    simp only [waitAxes] at h
    split at h
    · exact Option.noConfusion h
    · next r1 ds1 m1 t1 tr1 hloop =>
      rcases waitAxisLoop_spec link fix (-1) ax _ m t r1 ds1 m1 t1 tr1 hloop with
        ⟨hr1, hle1, v, τv, hds1, hv0, hτ1, hτ2, hlv⟩ | ⟨hr1, hds1, ht1, hmiss1⟩
      · subst hr1 hds1
        have hτdl : (τv : ℤ) < dl := by omega
        cases rest with
        | nil =>
          simp only [waitAxes, Option.some.injEq, Prod.mk.injEq] at h
          obtain ⟨h1, h2, _⟩ := h
          refine Or.inl ⟨h1.symm, [v], by rw [← h2], by simp, ?_⟩
          intro k hk
          have hk0 : k = 0 := by
            simp only [List.length_cons, List.length_nil] at hk
            omega
          subst hk0
          exact ⟨τv, hτ1, hτdl, by simpa using hv0, by simpa using hlv⟩
        | cons b bs =>
          split at h
          · exact Option.noConfusion h
          · next r2 ds2 m2 t2 tr2 hrec =>
            simp only [Option.some.injEq, Prod.mk.injEq] at h
            obtain ⟨h1, h2, _⟩ := h
            rcases waitAxes_spec link fix dl (b :: bs) 0 (dims ++ [v]) m1 t1 r2 ds2 m2 t2 tr2
                (by simp) hrec with ⟨hr2, new2, hds2, hlen2, hrep2⟩ |
                ⟨hr2, ax2, hax2, t0, ht0, hmiss2⟩
            · refine Or.inl ⟨h1 ▸ hr2, v :: new2, ?_, by simp [hlen2], ?_⟩
              · rw [← h2, hds2]
                simp
              · intro k hk
                cases k with
                | zero =>
                  exact ⟨τv, hτ1, hτdl, by simpa using hv0, by simpa using hlv⟩
                | succ j =>
                  obtain ⟨τ2, hτ2a, hτ2b, hτ2c, hτ2d⟩ :=
                    hrep2 j (by simp only [List.length_cons] at hk ⊢; omega)
                  exact ⟨τ2, by omega, hτ2b, by simpa using hτ2c, by simpa using hτ2d⟩
            · exact Or.inr ⟨h1 ▸ hr2, ax2, by simp [hax2], t0, by omega, hmiss2⟩
      · subst hr1 hds1
        have htle : dl ≤ (t1 : ℤ) := by
          have : t1 = t + (dl - (t : ℤ)).toNat := ht1
          omega
        have hmiss : ∀ τ, t ≤ τ → (τ : ℤ) < dl → pollMiss link ax τ := by
          intro τ hτa hτb
          exact hmiss1 τ hτa (by omega)
        cases rest with
        | nil =>
          simp only [waitAxes, Option.some.injEq, Prod.mk.injEq] at h
          obtain ⟨h1, _⟩ := h
          exact Or.inr ⟨h1.symm, ax, by simp, t, le_refl t, hmiss⟩
        | cons b bs =>
          simp only [waitAxes_stuck link fix (-1) dl (b :: bs) (-1) (dims ++ []) m1 t1 htle,
            Option.some.injEq, Prod.mk.injEq] at h
          obtain ⟨h1, _⟩ := h
          rw [if_neg (by simp)] at h1
          exact Or.inr ⟨h1.symm, ax, by simp, t, le_refl t, hmiss⟩


/-- A whole-stage wait with at least one discovered axis either returns
code -1 with a witnessing axis whose polls all missed from some tick on
through the rest of the deadline window (the timeout budget ran out
before that axis reported a non-negative length), or returns the list of
measured lengths in axis order: one entry per discovered axis, the k-th
entry being the non-negative value the link reported for the k-th axis
at some tick inside the deadline window. -/
lemma wait_whole_spec (link : Link) (fix : Fix) (m : Mut) (t : ℕ) (timeout : ℤ)
    (o : Step PyRet) (hne : fix.axes ≠ [])
    (h : wait_for_home_or_jog link fix m t (-1) timeout = some o) :
    (o.ret = PyRet.code (-1) ∧ ∃ ax, ax ∈ fix.axes ∧ ∃ t0, t ≤ t0 ∧
      ∀ τ, t0 ≤ τ → (τ : ℤ) < (t : ℤ) + timeout → pollMiss link ax τ) ∨
    (∃ ls, o.ret = PyRet.list ls ∧ ls.length = fix.axes.length ∧
      ∀ k, k < fix.axes.length → ∃ τ, t ≤ τ ∧ (τ : ℤ) < (t : ℤ) + timeout ∧
        0 ≤ ls.getD k 0 ∧ link.l (fix.axes.getD k 0) τ = some (ls.getD k 0)) := by
  unfold wait_for_home_or_jog at h
  simp only [if_true, ite_true, reduceIte] at h
  split at h
  · exact Option.noConfusion h
  · next r dims m1 t1 tr1 hw =>
    rcases waitAxes_spec link fix ((t : ℤ) + timeout) fix.axes (-9) [] m t
        r dims m1 t1 tr1 hne hw with ⟨hr, new, hds, hlen, hrep⟩ |
        ⟨hr, ax2, hax2, t0, ht0, hmiss⟩
    · subst hr
      simp only [if_true, ite_true, reduceIte] at h
      split at h
      · exact Option.noConfusion h
      · next o2 hck =>
        cases h
        refine Or.inr ⟨dims, rfl, ?_, ?_⟩
        · rw [hds]
          simpa using hlen
        · intro k hk
          obtain ⟨τ, hτa, hτb, hτc, hτd⟩ := hrep k hk
          refine ⟨τ, hτa, hτb, ?_, ?_⟩
          · rw [hds]
            simpa using hτc
          · rw [hds]
            simpa using hτd
    · subst hr
      rw [if_neg (by decide)] at h
      split at h
      · exact Option.noConfusion h
      · next o2 hck =>
        cases h
        exact Or.inl ⟨rfl, ax2, hax2, t0, ht0, hmiss⟩

/-- C7 (amended): `wait_for_home_or_jog` returns -3 without issuing any
link command when the axis argument is invalid; a whole-stage wait (with
at least one discovered axis) returns either code -1 — and then the
timeout budget was exhausted before some discovered axis ever reported a
non-negative length, every poll of that axis missing for the rest of the
deadline window, so any partially accumulated lengths are discarded — or
the complete list of measured lengths in axis order, the k-th entry
being the non-negative length the link reported for the k-th discovered
axis at a tick inside the deadline window; a valid single-axis wait
likewise returns code -1 (exactly when every poll tick of the whole
deadline window misses) or the one-element list holding that axis's
link-reported non-negative length; and if the link never reports a
non-negative length within the timeout, the whole-stage wait returns
code -1.  (With no discovered axes, the whole-stage wait returns -9 —
see the counterexample.) -/
theorem wait_outcomes :
    (∀ (link : Link) (fix : Fix) (m : Mut) (t : ℕ) (axis : ℤ) (timeout : ℤ),
      axis ≠ -1 → axis ∉ fix.axes →
      wait_for_home_or_jog link fix m t axis timeout =
        some ⟨PyRet.code (-3), m, t, []⟩) ∧
    (∀ (link : Link) (fix : Fix) (m : Mut) (t : ℕ) (timeout : ℤ) (o : Step PyRet),
      fix.axes ≠ [] →
      wait_for_home_or_jog link fix m t (-1) timeout = some o →
      (o.ret = PyRet.code (-1) ∧ ∃ ax, ax ∈ fix.axes ∧ ∃ t0, t ≤ t0 ∧
        ∀ τ, t0 ≤ τ → (τ : ℤ) < (t : ℤ) + timeout → pollMiss link ax τ) ∨
      (∃ ls, o.ret = PyRet.list ls ∧ ls.length = fix.axes.length ∧
        ∀ k, k < fix.axes.length → ∃ τ, t ≤ τ ∧ (τ : ℤ) < (t : ℤ) + timeout ∧
          0 ≤ ls.getD k 0 ∧ link.l (fix.axes.getD k 0) τ = some (ls.getD k 0))) ∧
    (∀ (link : Link) (fix : Fix) (m : Mut) (t : ℕ) (axis : ℤ) (timeout : ℤ)
        (o : Step PyRet),
      axis ≠ -1 → axis ∈ fix.axes →
      wait_for_home_or_jog link fix m t axis timeout = some o →
      (o.ret = PyRet.code (-1) ∧
        ∀ τ, t ≤ τ → (τ : ℤ) < (t : ℤ) + timeout → pollMiss link axis τ) ∨
      (∃ v τ, o.ret = PyRet.list [v] ∧ 0 ≤ v ∧ t ≤ τ ∧ (τ : ℤ) < (t : ℤ) + timeout ∧
        link.l axis τ = some v)) ∧
    (∀ (link : Link) (fix : Fix) (m : Mut) (t : ℕ) (timeout : ℤ) (o : Step PyRet),
      fix.axes ≠ [] →
      wait_for_home_or_jog link fix m t (-1) timeout = some o →
      (∀ (ax : ℤ) (τ : ℕ), t ≤ τ → (τ : ℤ) < (t : ℤ) + timeout → pollMiss link ax τ) →
      o.ret = PyRet.code (-1)) := by
  refine ⟨?_, ?_, ?_, ?_⟩
  · intro link fix m t axis timeout haxis hmem
    unfold wait_for_home_or_jog
    simp [waitAxes, haxis, hmem]
  · intro link fix m t timeout o hne h
    exact wait_whole_spec link fix m t timeout o hne h
  · intro link fix m t axis timeout o haxis hmem h
    unfold wait_for_home_or_jog at h
    simp only [if_neg haxis, if_pos hmem] at h
    split at h
    · exact Option.noConfusion h
    · next r dims m1 t1 tr1 hw =>
      simp only [waitAxes] at hw
      split at hw
      · exact Option.noConfusion hw
      · next r1 ds1 mm1 tt1 ttr1 hloop =>
        rcases waitAxisLoop_spec link fix axis axis _ m t r1 ds1 mm1 tt1 ttr1 hloop with
          ⟨hr1, hle1, v, τv, hds1, hv0, hτ1, hτ2, hlv⟩ | ⟨hr1, hds1, ht1, hmiss1⟩
        · subst hr1 hds1
          simp only [waitAxes, Option.some.injEq, Prod.mk.injEq] at hw
          obtain ⟨h1, h2, _⟩ := hw
          subst h1
          cases h
          exact Or.inr ⟨v, τv, by simp [← h2], hv0, hτ1, by omega, hlv⟩
        · subst hr1 hds1
          simp only [waitAxes, Option.some.injEq, Prod.mk.injEq] at hw
          obtain ⟨h1, h2, _⟩ := hw
          subst h1
          cases h
          refine Or.inl ⟨by norm_num, ?_⟩
          intro τ hτa hτb
          exact hmiss1 τ hτa (by omega)
  · intro link fix m t timeout o hne h hall
    rcases wait_whole_spec link fix m t timeout o hne h with ⟨h1, _⟩ |
        ⟨ls, hret, hlen, hrep⟩
    · exact h1
    · exfalso
      obtain ⟨τ, hτa, hτb, hτc, hτd⟩ := hrep 0 (List.length_pos.mpr hne)
      have hneg := hall (fix.axes.getD 0 0) τ hτa hτb (ls.getD 0 0) hτd
      omega

/-- C7 witness: a concrete wait on an invalid axis (5, on a one-axis
stage) returns -3 having sent nothing on the link, and a concrete
whole-stage wait on a link that always answers -1 (so no poll in the
window ever reports a non-negative length) returns code -1. -/
theorem wait_outcomes_w :
    (wait_for_home_or_jog link756 fix750 mEmpty1 0 5 100 =
      some ⟨PyRet.code (-3), mEmpty1, 0, []⟩) ∧
    (∃ o, wait_for_home_or_jog linkNeg fix750 mEmpty1 0 (-1) 3 = some o ∧
      o.ret = PyRet.code (-1)) := by
  refine ⟨wait_outcomes.1 link756 fix750 mEmpty1 0 5 100 (by decide) (by decide), ?_⟩
  have hw : wait_for_home_or_jog linkNeg fix750 mEmpty1 0 (-1) 3 =
      some ⟨PyRet.code (-1), ⟨[none], [some (-1)], [[]], some false⟩, 4,
        [Cmd.getL 1, Cmd.getL 1, Cmd.getL 1, Cmd.getL 1]⟩ := by decide
  exact ⟨_, hw, wait_outcomes.2.2.2 linkNeg fix750 mEmpty1 0 3 _ (by decide) hw
    (fun ax τ h1 h2 v hv => by injection hv with hv2; omega)⟩

/-- Setting a list entry in range makes that entry readable back. -/
lemma get?_set_self {α : Type} (l : List α) (i : ℕ) (a : α) (h : i < l.length) :
    (l.set i a).get? i = some a := by
  rw [List.get?_set_eq, List.get?_eq_get h]
  rfl

/-- The effective keepout list is never empty. -/
lemma effKoz_ne_nil (z : List ℚ) : effKoz z ≠ [] := by
  unfold effKoz
  split
  · simp
  · assumption

/-- Replacing an empty keepout list is idempotent. -/
lemma effKoz_idem (z : List ℚ) : effKoz (effKoz z) = effKoz z := by
  unfold effKoz
  split <;> simp

/-- The keepout minimum is unchanged by the empty-list replacement. -/
lemma kozMin_effKoz (z : List ℚ) : kozMin (effKoz z) = kozMin z := by
  unfold kozMin
  rw [effKoz_idem]

/-- The keepout maximum is unchanged by the empty-list replacement. -/
lemma kozMax_effKoz (z : List ℚ) : kozMax (effKoz z) = kozMax z := by
  unfold kozMax
  rw [effKoz_idem]

/-- The in-place replacement of one axis's empty keepout list by
[-10, -10] (goto's mutation) does not change which targets violate the
guard, for any axis. -/
lemma violatesGuard_set (fix : Fix) (m : Mut) (L : ℤ → ℤ) (np : ℚ) (ax ax' : ℤ)
    (koz0 : List ℚ) (hkoz : m.keepout_zones.get? (fix.axes.indexOf ax) = some koz0)
    (hax : ax ∈ fix.axes) (hax' : ax' ∈ fix.axes) :
    violatesGuard fix
      { m with keepout_zones :=
          m.keepout_zones.set (fix.axes.indexOf ax) (effKoz koz0) } L np ax' ↔
    violatesGuard fix m L np ax' := by
  by_cases hij : fix.axes.indexOf ax = fix.axes.indexOf ax'
  · have hax2 : ax = ax' := (List.indexOf_inj hax hax').mp hij
    subst hax2
    have hlt : fix.axes.indexOf ax < m.keepout_zones.length := by
      obtain ⟨w, _⟩ := List.get?_eq_some.mp hkoz
      exact w
    unfold violatesGuard
    rw [get?_set_self _ _ _ hlt, hkoz]
    simp only [Option.getD_some]
    rw [kozMin_effKoz, kozMax_effKoz]
  · unfold violatesGuard
    rw [List.get?_set_ne _ _ hij]


/-- When every targeted axis is discovered and reports a positive length,
and some pair violates the bounds/keepout guard, goto's validation loop
ends with -6. -/
lemma gotoValidate_violation (link : Link) (fix : Fix) (L : ℤ → ℤ)
    (hL : ∀ (ax : ℤ) (τ : ℕ), link.l ax τ = some (L ax)) :
    ∀ (prs : List (ℚ × ℤ)) (r0 : ℤ) (m : Mut) (t : ℕ),
    (∀ p ∈ prs, p.2 ∈ fix.axes) →
    m.keepout_zones.length = fix.axes.length →
    (∀ p ∈ prs, 0 < L p.2) →
    (∃ p ∈ prs, violatesGuard fix m L p.1 p.2) →
    ∃ o : ValOut, gotoValidate link fix prs r0 m t = some o ∧ o.ret = -6
  | [], _, _, _, _, _, _, hvio => by simp at hvio
  | (np, ax) :: rest, r0, m, t, hmem, hklen, hpos, hvio => by
    have haxm : ax ∈ fix.axes := hmem (np, ax) (by simp)
    have hidx : fix.axes.indexOf ax < m.keepout_zones.length := by
      rw [hklen]
      exact List.indexOf_lt_length.mpr haxm
    obtain ⟨koz0, hkoz⟩ : ∃ z, m.keepout_zones.get? (fix.axes.indexOf ax) = some z :=
      ⟨_, List.get?_eq_get hidx⟩
    have hpos0 : 0 < L ax := hpos (np, ax) (by simp)
    simp only [gotoValidate, hL ax t, if_pos hpos0, hkoz]
    by_cases hv : violatesGuard fix m L np ax
    · rw [if_neg ?hng]
      case hng =>
        unfold violatesGuard at hv
        rw [hkoz] at hv
        simp only [Option.getD_some] at hv
        intro hcond
        rcases hv with hnb | hink
        · exact hnb hcond.1
        · exact hcond.2 hink
      exact ⟨_, rfl, rfl⟩
    · rw [if_pos ?hg]
      case hg =>
        unfold violatesGuard at hv
        rw [hkoz] at hv
        simp only [Option.getD_some] at hv
        push_neg at hv
        obtain ⟨h1, h2⟩ := hv
        exact ⟨h1, fun hc => absurd hc.2 (not_le.mpr (h2 hc.1))⟩
      have hvio2 : ∃ p ∈ rest, violatesGuard fix
          { m with keepout_zones :=
              m.keepout_zones.set (fix.axes.indexOf ax) (effKoz koz0) } L p.1 p.2 := by
        obtain ⟨p, hp, hpv⟩ := hvio
        rcases List.mem_cons.mp hp with heq | hp2
        · subst heq
          exact absurd hpv hv
        · exact ⟨p, hp2,
            (violatesGuard_set fix m L p.1 ax p.2 koz0 hkoz haxm
              (hmem p (by simp [hp2]))).mpr hpv⟩
      obtain ⟨o, ho, hor⟩ := gotoValidate_violation link fix L hL rest 0
        { m with keepout_zones :=
            m.keepout_zones.set (fix.axes.indexOf ax) (effKoz koz0) }
        (t + 1) (fun p hp => hmem p (by simp [hp])) (by simp [hklen])
        (fun p hp => hpos p (by simp [hp])) hvio2
      simp only [ho]
      exact ⟨_, rfl, hor⟩


/-- goto's validation loop only ever reads lengths: its trace consists of
getL commands alone. -/
lemma gotoValidate_trace (link : Link) (fix : Fix) :
    ∀ (prs : List (ℚ × ℤ)) (r0 : ℤ) (m : Mut) (t : ℕ) (o : ValOut),
    gotoValidate link fix prs r0 m t = some o →
    ∀ c ∈ o.tr, ∃ a, c = Cmd.getL a
  | [], r0, m, t, o, h => by
    simp only [gotoValidate, Option.some.injEq] at h
    subst h
    simp
  | (np, ax) :: rest, r0, m, t, o, h => by
    simp only [gotoValidate] at h
    split at h
    · split at h
      · split at h
        · exact Option.noConfusion h
        · split at h
          · split at h
            · exact Option.noConfusion h
            · next o2 hrec =>
              cases h
              intro c hc
              rcases List.mem_cons.mp hc with rfl | hc2
              · exact ⟨ax, rfl⟩
              · exact gotoValidate_trace link fix rest 0 _ (t + 1) o2 hrec c hc2
          · cases h
            intro c hc
            rcases List.mem_cons.mp hc with rfl | hc2
            · exact ⟨ax, rfl⟩
            · simp at hc2
      · cases h
        intro c hc
        rcases List.mem_cons.mp hc with rfl | hc2
        · exact ⟨ax, rfl⟩
        · simp at hc2
    · cases h
      intro c hc
      rcases List.mem_cons.mp hc with rfl | hc2
      · exact ⟨ax, rfl⟩
      · simp at hc2

/-- C1: for every call to `goto` in which each targeted axis is a
discovered axis reporting a positive length `L ax`, if any targeted
axis's computed step target lies outside
[end_buffer_steps, length - end_buffer_steps] or inside that axis's
keepout interval (converted to steps at use time), the call returns -6
and no goto move command is ever sent over the link for any axis of the
call. -/
theorem goto_rejects_unsafe_targets (link : Link) (fix : Fix) (m : Mut) (t : ℕ)
    (new_pos : List ℚ) (axes : List ℤ) (block : Bool) (timeout : ℤ) (L : ℤ → ℤ)
    (hL : ∀ (ax : ℤ) (τ : ℕ), link.l ax τ = some (L ax))
    (hpos : ∀ ax ∈ axes, 0 < L ax)
    (hmem : ∀ ax ∈ axes, ax ∈ fix.axes)
    (hklen : m.keepout_zones.length = fix.axes.length)
    (hlen : new_pos.length = axes.length)
    (hvio : ∃ p ∈ new_pos.zip axes, violatesGuard fix m L p.1 p.2) :
    ∃ o : Step ℤ, goto link fix m t new_pos axes block timeout = some o ∧
      o.ret = -6 ∧ ∀ (a tg : ℤ), Cmd.goto a tg ∉ o.tr := by
  obtain ⟨vo, hvo, hvr⟩ := gotoValidate_violation link fix L hL (new_pos.zip axes) (-9) m t
    (fun p hp => hmem p.2 (List.of_mem_zip hp).2) hklen
    (fun p hp => hpos p.2 (List.of_mem_zip hp).2) hvio
  unfold goto gotoCore
  rw [if_neg (by omega)]
  simp only [hvo]
  rw [if_neg (by simp [hvr])]
  refine ⟨⟨vo.ret, vo.m, vo.t, vo.tr⟩, by simp [hvr], hvr, ?_⟩
  intro a tg hmemtr
  obtain ⟨b, hb⟩ := gotoValidate_trace link fix (new_pos.zip axes) (-9) m t vo hvo
    (Cmd.goto a tg) hmemtr
  exact Cmd.noConfusion hb

/-- C1 witness: the spec scenario — axis length 1000 mm, end buffer 5 mm,
keepout [20, 30] mm — where goto(25 mm) returns -6 with no move command
sent. -/
theorem goto_rejects_unsafe_targets_w :
    ∃ o : Step ℤ, goto link1000 fix750 mKoz1 0 [25] [1] true 80 = some o ∧
      o.ret = -6 ∧ ∀ (a tg : ℤ), Cmd.goto a tg ∉ o.tr :=
  goto_rejects_unsafe_targets link1000 fix750 mKoz1 0 [25] [1] true 80
    (fun _ => 6400000) (fun _ _ => rfl) (by decide) (by decide) (by decide) (by decide)
    ⟨(25, 1), by decide, by decide⟩

/-- goto's validation loop never touches the cached positions. -/
lemma gotoValidate_positions (link : Link) (fix : Fix) :
    ∀ (prs : List (ℚ × ℤ)) (r0 : ℤ) (m : Mut) (t : ℕ) (o : ValOut),
    gotoValidate link fix prs r0 m t = some o →
    o.m.current_position = m.current_position
  | [], r0, m, t, o, h => by
    simp only [gotoValidate, Option.some.injEq] at h
    subst h
    rfl
  | (np, ax) :: rest, r0, m, t, o, h => by
    simp only [gotoValidate] at h
    split at h
    · split at h
      · split at h
        · exact Option.noConfusion h
        · split at h
          · split at h
            · exact Option.noConfusion h
            · next o2 hrec =>
              cases h
              have h3 := gotoValidate_positions link fix rest 0 _ (t + 1) o2 hrec
              exact h3
          · cases h
            rfl
      · cases h
        rfl
    · cases h
      rfl

/-- goto's stability loop writes the cached positions only at index i,
the loop's enumerate index, if at all. -/
lemma gotoWaitAxis_positions (link : Link) (fix : Fix) (ax tgt : ℤ) (i : ℕ) :
    ∀ (fuel : ℕ) (q0 q1 : Option ℤ) (ret : ℤ) (m : Mut) (t : ℕ)
      (r : ℤ) (m' : Mut) (t' : ℕ) (tr : List Cmd),
    gotoWaitAxis link fix ax tgt i fuel q0 q1 ret m t = some (r, m', t', tr) →
    m'.current_position = m.current_position ∨
      ∃ p, m'.current_position = m.current_position.set i p
  | 0, q0, q1, ret, m, t, r, m', t', tr, h => by
    simp only [gotoWaitAxis, Option.some.injEq, Prod.mk.injEq] at h
    obtain ⟨_, h2, _⟩ := h
    exact Or.inl (by rw [← h2])
  | fuel + 1, q0, q1, ret, m, t, r, m', t', tr, h => by
    simp only [gotoWaitAxis] at h
    split at h
    · split at h
      · exact Option.noConfusion h
      · simp only [Option.some.injEq, Prod.mk.injEq] at h
        obtain ⟨_, h2, _⟩ := h
        exact Or.inr ⟨_, by rw [← h2]⟩
    · split at h
      · exact Option.noConfusion h
      · next r2 m2 t2 tr2 hrec =>
        simp only [Option.some.injEq, Prod.mk.injEq] at h
        obtain ⟨_, h2, _⟩ := h
        rcases gotoWaitAxis_positions link fix ax tgt i fuel q1 _ ret m (t + 1)
            r2 m2 t2 tr2 hrec with hsame | ⟨p, hset⟩
        · exact Or.inl (by rw [← h2, hsame])
        · exact Or.inr ⟨p, by rw [← h2, hset]⟩

/-- C10: in a blocking single-axis `goto`, any cached-position write lands
at index 0 — the axis's positional index inside the call's axes argument
— never at the axis's index in the discovered axes list; concretely, a
blocking goto of axes=[2] on a stage with discovered axes [1, 2] that
stops at its 100 mm target writes 100 into slot 0 (axis 1's slot) and
leaves slot 1 (axis 2's own slot) at its old value 9. -/
theorem goto_blocking_writes_call_index :
    (∀ (link : Link) (fix : Fix) (m : Mut) (t : ℕ) (np : ℚ) (ax : ℤ)
        (block : Bool) (timeout : ℤ) (o : Step ℤ),
      goto link fix m t [np] [ax] block timeout = some o →
      (o.m.current_position = m.current_position ∨
        ∃ p, o.m.current_position = m.current_position.set 0 p) ∧
      (∀ j, j ≠ 0 → o.m.current_position.get? j = m.current_position.get? j)) ∧
    ((goto linkT fixT mT 0 [100] [2] true 10).map
      (fun o => (o.ret, o.m.current_position)) = some (0, [some 100, some 9])) := by
  constructor
  · intro link fix m t np ax block timeout o h
    unfold goto at h
    cases hc : gotoCore link fix m t [np] [ax] block timeout with
    | none => rw [hc] at h; exact Option.noConfusion h
    | some oc =>
      simp only [hc] at h
      have hpos : o.m.current_position = oc.m.current_position := by
        split at h
        · cases h; rfl
        · cases h; rfl
      suffices hcc : oc.m.current_position = m.current_position ∨
          ∃ p, oc.m.current_position = m.current_position.set 0 p by
        rcases hcc with hsame | ⟨p, hset⟩
        · exact ⟨Or.inl (hpos.trans hsame), fun j hj => by rw [hpos, hsame]⟩
        · refine ⟨Or.inr ⟨p, hpos.trans hset⟩, fun j hj => ?_⟩
          rw [hpos, hset, List.get?_set_ne _ _ (Ne.symm hj)]
      unfold gotoCore at hc
      rw [if_neg (by simp)] at hc
      split at hc
      · exact Option.noConfusion hc
      · next v hval =>
        have hvpos := gotoValidate_positions link fix ([np].zip [ax]) (-9) m t v hval
        split at hc
        · split at hc
          · dsimp only at hc
            split at hc
            · exact Option.noConfusion hc
            · next r2 m2 t2 tr2 heq =>
              cases hc
              cases htg : v.tgts with
              | nil =>
                rw [htg] at heq
                simp only [List.zip_nil_right, gotoWaitAll, Option.some.injEq,
                  Prod.mk.injEq] at heq
                obtain ⟨_, h2, _⟩ := heq
                exact Or.inl (by simp only [← h2, hvpos])
              | cons t0 ts =>
                rw [htg] at heq
                simp only [List.zip_cons_cons, List.zip_nil_left, gotoWaitAll] at heq
                split at heq
                · exact Option.noConfusion heq
                · next r1 m1 t1 tr1 hwa =>
                  simp only [Option.some.injEq, Prod.mk.injEq] at heq
                  obtain ⟨_, h2, _⟩ := heq
                  rcases gotoWaitAxis_positions link fix ax t0 0 _ _ _ _ _ _
                      r1 m1 t1 tr1 hwa with hsame | ⟨p, hset⟩
                  · exact Or.inl (by rw [← h2, hsame, hvpos])
                  · exact Or.inr ⟨p, by rw [← h2, hset, hvpos]⟩
          · cases hc
            exact Or.inl hvpos
        · cases hc
          exact Or.inl hvpos
  · decide

/-- C10 witness: the concrete mis-indexed write, obtained through the
general statement: the moved axis's own slot (index 1) is untouched. -/
theorem goto_blocking_writes_call_index_w :
    ∃ o : Step ℤ, goto linkT fixT mT 0 [100] [2] true 10 = some o ∧
      o.m.current_position.get? 1 = mT.current_position.get? 1 := by
  have h : goto linkT fixT mT 0 [100] [2] true 10 =
      some ⟨0, ⟨[some 100, some 9], [none, none], [[20, 30], [20, 30]], none⟩, 4,
        [Cmd.getL 2, Cmd.goto 2 100, Cmd.getR 2, Cmd.getR 2]⟩ := by decide
  exact ⟨_, h,
    (goto_blocking_writes_call_index.1 linkT fixT mT 0 100 2 true 10 _ h).2 1 (by decide)⟩

/-- The check loop's trace consists of length reads alone. -/
lemma checkLoop_trace (link : Link) (fix : Fix) :
    ∀ (prs : List ℤ) (r0 : ℤ) (m : Mut) (t : ℕ) (o : Step ℤ),
    checkLoop link fix prs r0 m t = some o → ∀ c ∈ o.tr, ∃ a, c = Cmd.getL a
  | [], r0, m, t, o, h => by
    simp only [checkLoop, Option.some.injEq] at h
    subst h
    simp
  | ax :: rest, r0, m, t, o, h => by
    simp only [checkLoop] at h
    split at h
    · split at h
      · split at h
        · split at h
          · split at h
            · next o2 hrec =>
              cases h
              intro c hc
              rcases List.mem_cons.mp hc with rfl | hc2
              · exact ⟨ax, rfl⟩
              · exact checkLoop_trace link fix rest 0 _ (t + 1) o2 hrec c hc2
            · exact Option.noConfusion h
          · cases h
            intro c hc
            rcases List.mem_cons.mp hc with rfl | hc2
            · exact ⟨ax, rfl⟩
            · simp at hc2
        · exact Option.noConfusion h
      · cases h
        intro c hc
        rcases List.mem_cons.mp hc with rfl | hc2
        · exact ⟨ax, rfl⟩
        · simp at hc2
    · cases h
      intro c hc
      rcases List.mem_cons.mp hc with rfl | hc2
      · exact ⟨ax, rfl⟩
      · simp at hc2

/-- check_lengths never sends a home command. -/
lemma check_lengths_homeFree (link : Link) (fix : Fix) (m : Mut) (t : ℕ) (axis : ℤ)
    (o : Step ℤ) (h : check_lengths link fix m t axis = some o) : homeFree o.tr := by
  unfold check_lengths at h
  by_cases ha : axis = -1
  · simp only [if_pos ha] at h
    cases hcl : checkLoop link fix fix.axes (-9) m t with
    | none => rw [hcl] at h; exact Option.noConfusion h
    | some o2 =>
      simp only [hcl] at h
      cases h
      intro a hmem
      obtain ⟨b, hb⟩ := checkLoop_trace link fix fix.axes (-9) m t _ hcl (Cmd.home a) hmem
      exact Cmd.noConfusion hb
  · by_cases hm : axis ∈ fix.axes
    · simp only [if_neg ha, if_pos hm] at h
      cases hcl : checkLoop link fix [axis] (-9) m t with
      | none => rw [hcl] at h; exact Option.noConfusion h
      | some o2 =>
        simp only [hcl] at h
        cases h
        intro a hmem
        obtain ⟨b, hb⟩ := checkLoop_trace link fix [axis] (-9) m t _ hcl (Cmd.home a) hmem
        exact Cmd.noConfusion hb
    · simp only [if_neg ha, if_neg hm, checkLoop, Option.some.injEq] at h
      cases h
      intro a hmem
      simp at hmem

/-- The per-axis wait loop never sends a home command. -/
lemma waitAxisLoop_homeFree (link : Link) (fix : Fix) (axisArg ax : ℤ) :
    ∀ (fuel : ℕ) (m : Mut) (t : ℕ) (r : ℤ) (ds : List ℤ) (m' : Mut) (t' : ℕ)
      (tr : List Cmd),
    waitAxisLoop link fix axisArg ax fuel m t = some (r, ds, m', t', tr) →
    homeFree tr
  | 0, m, t, r, ds, m', t', tr, h => by
    simp only [waitAxisLoop, Option.some.injEq, Prod.mk.injEq] at h
    obtain ⟨_, _, _, _, h5⟩ := h
    subst h5
    intro a hmem
    simp at hmem
  | fuel + 1, m, t, r, ds, m', t', tr, h => by
    simp only [waitAxisLoop] at h
    split at h
    · split at h
      · split at h
        · exact Option.noConfusion h
        · split at h
          · split at h
            · exact Option.noConfusion h
            · next o2 hck =>
              simp only [Option.some.injEq, Prod.mk.injEq] at h
              obtain ⟨_, _, _, _, h5⟩ := h
              subst h5
              intro a hmem
              rcases List.mem_cons.mp hmem with heq | hmem2
              · exact Cmd.noConfusion heq
              · rcases List.mem_cons.mp hmem2 with heq | hmem3
                · exact Cmd.noConfusion heq
                · exact check_lengths_homeFree link fix _ _ ax o2 hck a hmem3
          · simp only [Option.some.injEq, Prod.mk.injEq] at h
            obtain ⟨_, _, _, _, h5⟩ := h
            subst h5
            intro a hmem
            rcases List.mem_cons.mp hmem with heq | hmem2
            · exact Cmd.noConfusion heq
            · rcases List.mem_cons.mp hmem2 with heq | hmem3
              · exact Cmd.noConfusion heq
              · simp at hmem3
      · split at h
        · exact Option.noConfusion h
        · next r2 ds2 m2 t2 tr2 hrec =>
          simp only [Option.some.injEq, Prod.mk.injEq] at h
          obtain ⟨_, _, _, _, h5⟩ := h
          subst h5
          intro a hmem
          rcases List.mem_cons.mp hmem with heq | hmem2
          · exact Cmd.noConfusion heq
          · exact waitAxisLoop_homeFree link fix axisArg ax fuel m (t + 1)
              r2 ds2 m2 t2 tr2 hrec a hmem2
    · split at h
      · exact Option.noConfusion h
      · next r2 ds2 m2 t2 tr2 hrec =>
        simp only [Option.some.injEq, Prod.mk.injEq] at h
        obtain ⟨_, _, _, _, h5⟩ := h
        subst h5
        intro a hmem
        rcases List.mem_cons.mp hmem with heq | hmem2
        · exact Cmd.noConfusion heq
        · exact waitAxisLoop_homeFree link fix axisArg ax fuel m (t + 1)
            r2 ds2 m2 t2 tr2 hrec a hmem2


/-- The wait fold never sends a home command. -/
lemma waitAxes_homeFree (link : Link) (fix : Fix) (axisArg : ℤ) (dl : ℤ) :
    ∀ (axs : List ℤ) (r0 : ℤ) (dims : List ℤ) (m : Mut) (t : ℕ)
      (r : ℤ) (ds : List ℤ) (m' : Mut) (t' : ℕ) (tr : List Cmd),
    waitAxes link fix axisArg dl axs r0 dims m t = some (r, ds, m', t', tr) →
    homeFree tr
  | [], r0, dims, m, t, r, ds, m', t', tr, h => by
    simp only [waitAxes, Option.some.injEq, Prod.mk.injEq] at h
    obtain ⟨_, _, _, _, h5⟩ := h
    subst h5
    intro a hmem
    simp at hmem
  | ax :: rest, r0, dims, m, t, r, ds, m', t', tr, h => by
    simp only [waitAxes] at h
    split at h
    · exact Option.noConfusion h
    · next r1 ds1 m1 t1 tr1 hloop =>
      split at h
      · exact Option.noConfusion h
      · next r2 ds2 m2 t2 tr2 hrec =>
        simp only [Option.some.injEq, Prod.mk.injEq] at h
        obtain ⟨_, _, _, _, h5⟩ := h
        subst h5
        intro a hmem
        rcases List.mem_append.mp hmem with hm1 | hm2
        · exact waitAxisLoop_homeFree link fix axisArg ax _ m t r1 ds1 m1 t1 tr1 hloop a hm1
        · exact waitAxes_homeFree link fix axisArg dl rest r1 (dims ++ ds1) m1 t1
            r2 ds2 m2 t2 tr2 hrec a hm2

/-- wait_for_home_or_jog never sends a home command. -/
lemma wait_homeFree (link : Link) (fix : Fix) (m : Mut) (t : ℕ) (axis : ℤ)
    (timeout : ℤ) (o : Step PyRet)
    (h : wait_for_home_or_jog link fix m t axis timeout = some o) : homeFree o.tr := by
  unfold wait_for_home_or_jog at h
  by_cases ha : axis = -1
  · simp only [if_pos ha] at h
    split at h
    · exact Option.noConfusion h
    · next r dims m1 t1 tr1 hw =>
      split at h
      · exact Option.noConfusion h
      · next o2 hck =>
        cases h
        intro a hmem
        rcases List.mem_append.mp hmem with hm1 | hm2
        · exact waitAxes_homeFree link fix axis _ fix.axes (-9) [] m t
            r dims m1 t1 tr1 hw a hm1
        · exact check_lengths_homeFree link fix m1 t1 (-1) o2 hck a hm2
  · by_cases hm : axis ∈ fix.axes
    · simp only [if_neg ha, if_pos hm] at h
      split at h
      · exact Option.noConfusion h
      · next r dims m1 t1 tr1 hw =>
        simp only [if_neg ha, Option.some.injEq] at h
        cases h
        intro a hmem
        exact waitAxes_homeFree link fix axis _ [axis] (-9) [] m t
          r dims m1 t1 tr1 hw a hmem
    · simp only [if_neg ha, if_neg hm] at h
      split at h
      · exact Option.noConfusion h
      · next r dims m1 t1 tr1 hw =>
        simp only [if_neg ha, Option.some.injEq] at h
        cases h
        intro a hmem
        exact waitAxes_homeFree link fix axis _ [] (-3) [] m t
          r dims m1 t1 tr1 hw a hmem

/-- jog never sends a home command. -/
lemma jog_homeFree (link : Link) (fix : Fix) (m : Mut) (t : ℕ) (axis : ℤ)
    (direction : Char) (block : Bool) (timeout : ℤ) (o : Step PyRet)
    (h : jog link fix m t axis direction block timeout = some o) : homeFree o.tr := by
  unfold jog at h
  by_cases hm : axis ∈ fix.axes
  · simp only [if_pos hm] at h
    by_cases hack : link.ack (Cmd.jog axis direction) t = true
    · simp only [hack, if_true, ite_true] at h
      cases hb : block with
      | true =>
        rw [hb] at h
        simp only [if_true, ite_true] at h
        split at h
        · exact Option.noConfusion h
        · next o2 hw =>
          cases h
          intro a hmem
          rcases List.mem_cons.mp hmem with heq | hm2
          · exact Cmd.noConfusion heq
          · exact wait_homeFree link fix m (t + 1) axis _ o2 hw a hm2
      | false =>
        rw [hb] at h
        rw [if_neg (by decide)] at h
        cases h
        intro a hmem
        rcases List.mem_cons.mp hmem with heq | hm2
        · exact Cmd.noConfusion heq
        · simp at hm2
    · simp only [Bool.not_eq_true] at hack
      simp only [hack, if_false, ite_false, Option.some.injEq, Bool.false_eq_true] at h
      cases h
      intro a hmem
      rcases List.mem_cons.mp hmem with heq | hm2
      · exact Cmd.noConfusion heq
      · simp at hm2
  · simp only [if_neg hm, Option.some.injEq] at h
    cases h
    intro a hmem
    simp at hmem


/-- goto's command loop sends only absolute-move commands. -/
lemma gotoSend_trace (link : Link) : ∀ (prs : List (ℤ × ℤ)) (t : ℕ),
    ∀ c ∈ (gotoSend link prs t).2.2, ∃ a tg, c = Cmd.goto a tg
  | [], t => by simp [gotoSend]
  | (ax, tgt) :: rest, t => by
    intro c hc
    simp only [gotoSend] at hc
    split at hc
    · rcases List.mem_cons.mp hc with rfl | hc2
      · exact ⟨ax, tgt, rfl⟩
      · exact gotoSend_trace link rest (t + 1) c hc2
    · rcases List.mem_cons.mp hc with rfl | hc2
      · exact ⟨ax, tgt, rfl⟩
      · simp at hc2
  termination_by prs _ => prs.length

/-- goto's stability loop only reads positions. -/
lemma gotoWaitAxis_trace (link : Link) (fix : Fix) (ax tgt : ℤ) (i : ℕ) :
    ∀ (fuel : ℕ) (q0 q1 : Option ℤ) (ret : ℤ) (m : Mut) (t : ℕ)
      (r : ℤ) (m' : Mut) (t' : ℕ) (tr : List Cmd),
    gotoWaitAxis link fix ax tgt i fuel q0 q1 ret m t = some (r, m', t', tr) →
    ∀ c ∈ tr, ∃ a, c = Cmd.getR a
  | 0, q0, q1, ret, m, t, r, m', t', tr, h => by
    simp only [gotoWaitAxis, Option.some.injEq, Prod.mk.injEq] at h
    obtain ⟨_, _, _, h4⟩ := h
    subst h4
    simp
  | fuel + 1, q0, q1, ret, m, t, r, m', t', tr, h => by
    simp only [gotoWaitAxis] at h
    split at h
    · split at h
      · exact Option.noConfusion h
      · simp only [Option.some.injEq, Prod.mk.injEq] at h
        obtain ⟨_, _, _, h4⟩ := h
        subst h4
        intro c hc
        rcases List.mem_cons.mp hc with rfl | hc2
        · exact ⟨ax, rfl⟩
        · simp at hc2
    · split at h
      · exact Option.noConfusion h
      · next r2 m2 t2 tr2 hrec =>
        simp only [Option.some.injEq, Prod.mk.injEq] at h
        obtain ⟨_, _, _, h4⟩ := h
        subst h4
        intro c hc
        rcases List.mem_cons.mp hc with rfl | hc2
        · exact ⟨ax, rfl⟩
        · exact gotoWaitAxis_trace link fix ax tgt i fuel q1 _ ret m (t + 1)
            r2 m2 t2 tr2 hrec c hc2

/-- goto's blocking wait only reads positions. -/
lemma gotoWaitAll_trace (link : Link) (fix : Fix) (dl : ℤ) :
    ∀ (prs : List (ℤ × ℤ)) (r0 : ℤ) (i : ℕ) (m : Mut) (t : ℕ)
      (r : ℤ) (m' : Mut) (t' : ℕ) (tr : List Cmd),
    gotoWaitAll link fix dl prs r0 i m t = some (r, m', t', tr) →
    ∀ c ∈ tr, ∃ a, c = Cmd.getR a
  | [], r0, i, m, t, r, m', t', tr, h => by
    simp only [gotoWaitAll, Option.some.injEq, Prod.mk.injEq] at h
    obtain ⟨_, _, _, h4⟩ := h
    subst h4
    simp
  | (ax, tgt) :: rest, r0, i, m, t, r, m', t', tr, h => by
    simp only [gotoWaitAll] at h
    split at h
    · exact Option.noConfusion h
    · next r1 m1 t1 tr1 hwa =>
      split at h
      · exact Option.noConfusion h
      · next r2 m2 t2 tr2 hrec =>
        simp only [Option.some.injEq, Prod.mk.injEq] at h
        obtain ⟨_, _, _, h4⟩ := h
        subst h4
        intro c hc
        rcases List.mem_append.mp hc with hm1 | hm2
        · exact gotoWaitAxis_trace link fix ax tgt i _ _ _ r0 m t r1 m1 t1 tr1 hwa c hm1
        · exact gotoWaitAll_trace link fix dl rest r1 (i + 1) m1 t1 r2 m2 t2 tr2 hrec c hm2

/-- goto never sends a home command. -/
lemma goto_homeFree (link : Link) (fix : Fix) (m : Mut) (t : ℕ) (new_pos : List ℚ)
    (axes : List ℤ) (block : Bool) (timeout : ℤ) (o : Step ℤ)
    (h : goto link fix m t new_pos axes block timeout = some o) : homeFree o.tr := by
  unfold goto at h
  cases hc : gotoCore link fix m t new_pos axes block timeout with
  | none => rw [hc] at h; exact Option.noConfusion h
  | some oc =>
    simp only [hc] at h
    have htr : o.tr = oc.tr := by
      split at h
      · cases h; rfl
      · cases h; rfl
    rw [htr]
    unfold gotoCore at hc
    split at hc
    · cases hc
      intro a hmem
      simp at hmem
    · split at hc
      · exact Option.noConfusion hc
      · next v hval =>
        split at hc
        · dsimp only at hc
          split at hc
          · split at hc
            · exact Option.noConfusion hc
            · next r2 m2 t2 tr2 heq =>
              cases hc
              intro a hmem
              rcases List.mem_append.mp hmem with hm12 | hm3
              · rcases List.mem_append.mp hm12 with hm1 | hm2
                · obtain ⟨b, hb⟩ := gotoValidate_trace link fix (new_pos.zip axes)
                    (-9) m t v hval (Cmd.home a) hm1
                  exact Cmd.noConfusion hb
                · obtain ⟨b, tg, hb⟩ := gotoSend_trace link (axes.zip v.tgts) v.t
                    (Cmd.home a) hm2
                  exact Cmd.noConfusion hb
              · obtain ⟨b, hb⟩ := gotoWaitAll_trace link fix _ (axes.zip v.tgts)
                  _ 0 v.m _ r2 m2 t2 tr2 heq (Cmd.home a) hm3
                exact Cmd.noConfusion hb
          · cases hc
            intro a hmem
            rcases List.mem_append.mp hmem with hm1 | hm2
            · obtain ⟨b, hb⟩ := gotoValidate_trace link fix (new_pos.zip axes)
                (-9) m t v hval (Cmd.home a) hm1
              exact Cmd.noConfusion hb
            · obtain ⟨b, tg, hb⟩ := gotoSend_trace link (axes.zip v.tgts) v.t
                (Cmd.home a) hm2
              exact Cmd.noConfusion hb
        · cases hc
          intro a hmem
          obtain ⟨b, hb⟩ := gotoValidate_trace link fix (new_pos.zip axes)
            (-9) m t v hval (Cmd.home a) hmem
          exact Cmd.noConfusion hb

/-- A direct single-axis home sends at most its own home command, and
nothing else it sends is a home command. -/
lemma home_nonotter_trace (link : Link) (fix : Fix) (m : Mut) (t : ℕ) (axis : ℤ)
    (block : Bool) (timeout : ℤ) (o : Step PyRet) (haxis : axis ≠ -1)
    (h : home_nonotter link fix m t axis block timeout = some o) :
    o.tr = [] ∨ ∃ tr', o.tr = Cmd.home (some axis) :: tr' ∧ homeFree tr' := by
  unfold home_nonotter at h
  by_cases hm : axis ∈ fix.axes
  · rw [if_neg (fun hand => hand.2 hm)] at h
    simp only [if_neg haxis] at h
    by_cases hack : link.ack (Cmd.home (some axis)) t = true
    · simp only [hack, if_true, ite_true] at h
      by_cases hb : block = true
      · rw [if_pos hb] at h
        split at h
        · exact Option.noConfusion h
        · next o2 hw =>
          cases h
          exact Or.inr ⟨o2.tr, rfl, wait_homeFree link fix m (t + 1) axis _ o2 hw⟩
      · rw [if_neg hb] at h
        cases h
        exact Or.inr ⟨[], rfl, by intro a hmem; simp at hmem⟩
    · simp only [Bool.not_eq_true] at hack
      simp only [hack, Bool.false_eq_true, if_false, ite_false] at h
      cases h
      exact Or.inr ⟨[], rfl, by intro a hmem; simp at hmem⟩
  · rw [if_pos ⟨haxis, hm⟩] at h
    cases h
    exact Or.inl rfl


/-- C2: in every execution of composite ("otter") homing, a home command
for axis 2 appears on the link only if the jog of axis 2 returned 0,
home(axis=1) returned a measured-length list, check_lengths(1) returned 0
and the move of axis 1 to the safe offset returned 0; and each earlier
step's failure short-circuits the remaining steps — a failed jog or a
home(1) error code propagates as the call's result, a failed length check
of axis 1 yields exactly -5, and a failed safe-offset move propagates the
move's code. -/
theorem otter_home_sequencing (link : Link) (fix : Fix) (m : Mut) (t : ℕ) (timeout : ℤ) :
    (∀ o : Step PyRet, otter_home link fix m t otter_safe_x timeout = some o →
      Cmd.home (some 2) ∈ o.tr →
      ∃ (o1 : Step PyRet) (ls : List ℤ) (o2 : Step PyRet) (o3 o4 : Step ℤ),
        jog link fix m t 2 'b' true timeout = some o1 ∧ o1.ret = PyRet.code 0 ∧
        home_nonotter link fix o1.m o1.t 1 true
          (timeout - ((o1.t : ℤ) - (t : ℤ))) = some o2 ∧
        o2.ret = PyRet.list ls ∧
        check_lengths link fix o2.m o2.t 1 = some o3 ∧ o3.ret = 0 ∧
        goto link fix o3.m o3.t [otter_safe_x] [1] true
          (timeout - ((o3.t : ℤ) - (t : ℤ))) = some o4 ∧
        o4.ret = 0) ∧
    (∀ o1 : Step PyRet, jog link fix m t 2 'b' true timeout = some o1 →
      o1.ret ≠ PyRet.code 0 →
      otter_home link fix m t otter_safe_x timeout = some o1) ∧
    (∀ (o1 o2 : Step PyRet) (c : ℤ),
      jog link fix m t 2 'b' true timeout = some o1 → o1.ret = PyRet.code 0 →
      home_nonotter link fix o1.m o1.t 1 true
        (timeout - ((o1.t : ℤ) - (t : ℤ))) = some o2 →
      o2.ret = PyRet.code c →
      otter_home link fix m t otter_safe_x timeout =
        some ⟨PyRet.code c, o2.m, o2.t, o1.tr ++ o2.tr⟩) ∧
    (∀ (o1 o2 : Step PyRet) (d1 : ℤ) (ls : List ℤ) (o3 : Step ℤ),
      jog link fix m t 2 'b' true timeout = some o1 → o1.ret = PyRet.code 0 →
      home_nonotter link fix o1.m o1.t 1 true
        (timeout - ((o1.t : ℤ) - (t : ℤ))) = some o2 →
      o2.ret = PyRet.list (d1 :: ls) →
      check_lengths link fix o2.m o2.t 1 = some o3 → o3.ret ≠ 0 →
      otter_home link fix m t otter_safe_x timeout =
        some ⟨PyRet.code (-5), o3.m, o3.t, o1.tr ++ o2.tr ++ o3.tr⟩) ∧
    (∀ (o1 o2 : Step PyRet) (d1 : ℤ) (ls : List ℤ) (o3 o4 : Step ℤ),
      jog link fix m t 2 'b' true timeout = some o1 → o1.ret = PyRet.code 0 →
      home_nonotter link fix o1.m o1.t 1 true
        (timeout - ((o1.t : ℤ) - (t : ℤ))) = some o2 →
      o2.ret = PyRet.list (d1 :: ls) →
      check_lengths link fix o2.m o2.t 1 = some o3 → o3.ret = 0 →
      goto link fix o3.m o3.t [otter_safe_x] [1] true
        (timeout - ((o3.t : ℤ) - (t : ℤ))) = some o4 →
      o4.ret ≠ 0 →
      otter_home link fix m t otter_safe_x timeout =
        some ⟨PyRet.code o4.ret, o4.m, o4.t, o1.tr ++ o2.tr ++ o3.tr ++ o4.tr⟩) := by
  refine ⟨?_, ?_, ?_, ?_, ?_⟩
  · intro o h hmem
    unfold otter_home at h
    cases h1 : jog link fix m t 2 'b' true timeout with
    | none => rw [h1] at h; exact Option.noConfusion h
    | some o1 =>
      simp only [h1] at h
      by_cases hj : o1.ret = PyRet.code 0
      · rw [if_pos hj] at h
        cases h2 : home_nonotter link fix o1.m o1.t 1 true
            (timeout - ((o1.t : ℤ) - (t : ℤ))) with
        | none => rw [h2] at h; exact Option.noConfusion h
        | some o2 =>
          simp only [h2] at h
          cases hr2 : o2.ret with
          | code c =>
            rw [hr2] at h
            cases h
            exfalso
            rcases List.mem_append.mp hmem with hm1 | hm2
            · exact jog_homeFree link fix m t 2 'b' true timeout o1 h1 (some 2) hm1
            · rcases home_nonotter_trace link fix o1.m o1.t 1 true _ o2 (by decide) h2 with
                htr | ⟨tr', htr, hfree⟩
              · rw [htr] at hm2; simp at hm2
              · rw [htr] at hm2
                rcases List.mem_cons.mp hm2 with heq | hm3
                · simp at heq
                · exact hfree (some 2) hm3
          | list ls =>
            rw [hr2] at h
            cases ls with
            | nil => exact Option.noConfusion h
            | cons d1 rest =>
              cases h3 : check_lengths link fix o2.m o2.t 1 with
              | none => rw [h3] at h; exact Option.noConfusion h
              | some o3 =>
                simp only [h3] at h
                by_cases hc3 : o3.ret = 0
                · rw [if_pos hc3] at h
                  cases h4 : goto link fix o3.m o3.t [otter_safe_x] [1] true
                      (timeout - ((o3.t : ℤ) - (t : ℤ))) with
                  | none => rw [h4] at h; exact Option.noConfusion h
                  | some o4 =>
                    simp only [h4] at h
                    by_cases hg : o4.ret = 0
                    · exact ⟨o1, d1 :: rest, o2, o3, o4, rfl, hj, h2, hr2, h3, hc3, h4, hg⟩
                    · rw [if_neg hg] at h
                      cases h
                      exfalso
                      rcases List.mem_append.mp hmem with hm123 | hm4
                      · rcases List.mem_append.mp hm123 with hm12 | hm3
                        · rcases List.mem_append.mp hm12 with hm1 | hm2
                          · exact jog_homeFree link fix m t 2 'b' true timeout o1 h1
                              (some 2) hm1
                          · rcases home_nonotter_trace link fix o1.m o1.t 1 true _ o2
                              (by decide) h2 with htr | ⟨tr', htr, hfree⟩
                            · rw [htr] at hm2; simp at hm2
                            · rw [htr] at hm2
                              rcases List.mem_cons.mp hm2 with heq | hmx
                              · simp at heq
                              · exact hfree (some 2) hmx
                        · exact check_lengths_homeFree link fix o2.m o2.t 1 o3 h3
                            (some 2) hm3
                      · exact goto_homeFree link fix o3.m o3.t [otter_safe_x] [1] true
                          _ o4 h4 (some 2) hm4
                · rw [if_neg hc3] at h
                  cases h
                  exfalso
                  rcases List.mem_append.mp hmem with hm12 | hm3
                  · rcases List.mem_append.mp hm12 with hm1 | hm2
                    · exact jog_homeFree link fix m t 2 'b' true timeout o1 h1 (some 2) hm1
                    · rcases home_nonotter_trace link fix o1.m o1.t 1 true _ o2
                        (by decide) h2 with htr | ⟨tr', htr, hfree⟩
                      · rw [htr] at hm2; simp at hm2
                      · rw [htr] at hm2
                        rcases List.mem_cons.mp hm2 with heq | hmx
                        · simp at heq
                        · exact hfree (some 2) hmx
                  · exact check_lengths_homeFree link fix o2.m o2.t 1 o3 h3 (some 2) hm3
      · rw [if_neg hj] at h
        cases h
        exact absurd hmem (jog_homeFree link fix m t 2 'b' true timeout _ h1 (some 2))
  · intro o1 h1 hne
    unfold otter_home
    simp only [h1]
    rw [if_neg hne]
  · intro o1 o2 c h1 hj h2 hr2
    unfold otter_home
    simp only [h1]
    rw [if_pos hj]
    simp only [h2, hr2]
  · intro o1 o2 d1 ls o3 h1 hj h2 hr2 h3 hc3
    unfold otter_home
    simp only [h1]
    rw [if_pos hj]
    simp only [h2, hr2, h3]
    rw [if_neg hc3]
  · intro o1 o2 d1 ls o3 o4 h1 hj h2 hr2 h3 hc3 h4 hg
    unfold otter_home
    simp only [h1]
    rw [if_pos hj]
    simp only [h2, hr2, h3]
    rw [if_pos hc3]
    simp only [h4]
    rw [if_neg hg]

/-- C2 witness: a concrete otter run in which axis 2 jogs home, axis 1
homes with length 5000000 steps (not the expected 4800000 within
tolerance), so the sequence stops with -5 before any home command for
axis 2. -/
theorem otter_home_sequencing_w :
    otter_home linkOtter fixOtter mOtter 0 otter_safe_x 50 =
      some ⟨PyRet.code (-5),
        ⟨[some 0, some 0], [some 5000000, some 0], [[], []], some false⟩, 9,
        [Cmd.jog 2 'b', Cmd.getL 2, Cmd.getR 2, Cmd.getL 2] ++
          [Cmd.home (some 1), Cmd.getL 1, Cmd.getR 1, Cmd.getL 1] ++ [Cmd.getL 1]⟩ := by
  have h1 : jog linkOtter fixOtter mOtter 0 2 'b' true 50 =
      some ⟨PyRet.code 0, ⟨[none, some 0], [none, some 0], [[], []], some false⟩, 4,
        [Cmd.jog 2 'b', Cmd.getL 2, Cmd.getR 2, Cmd.getL 2]⟩ := by decide
  have h2 : home_nonotter linkOtter fixOtter
      ⟨[none, some 0], [none, some 0], [[], []], some false⟩ 4 1 true (50 - ((4 : ℤ) - 0)) =
      some ⟨PyRet.list [5000000],
        ⟨[some 0, some 0], [some 5000000, some 0], [[], []], some false⟩, 8,
        [Cmd.home (some 1), Cmd.getL 1, Cmd.getR 1, Cmd.getL 1]⟩ := by decide
  have h3 : check_lengths linkOtter fixOtter
      ⟨[some 0, some 0], [some 5000000, some 0], [[], []], some false⟩ 8 1 =
      some ⟨-1, ⟨[some 0, some 0], [some 5000000, some 0], [[], []], some false⟩, 9,
        [Cmd.getL 1]⟩ := by decide
  exact (otter_home_sequencing linkOtter fixOtter mOtter 0 50).2.2.2.1
    _ _ 5000000 [] _ h1 rfl h2 rfl h3 (by decide)

end Us
